import Mathlib

/-!
# Verification of the exploit-prover core of Cyber-Threat-Range-IDE

A shallow embedding, in Lean 4, of the static-analysis core found under
`src-tauri/src/analysis/` of the repository: the Python sink classifier
(`python_parser.rs`), the backward slicer with taint propagation
(`slicer.rs`), the cross-file slicer (`cross_slicer.rs`), the SMT
constraint generator (`constraint_gen.rs`), the solver-output parsing of
the Z3 driver (`solver.rs`) and the orchestrator (`prover.rs`).

Tree-sitter syntax trees are embedded as the inductive `PyNode` carrying
the node kind, named-ness, verbatim source text, position and the ordered
child list with optional field tags, mirroring exactly the accessors the
Rust code uses (`child_by_field_name`, `children`, `named_children`,
`child(0)`, `utf8_text`, `start_position`).  Rust `HashMap`s keyed by
identifier strings become association lists with unique keys, `HashSet`s
become lists or `Finset`s used only through membership.  The two
subprocess boundaries (the tree-sitter parse and the Z3 child process)
are the only parts not re-implemented: functions take the parsed tree as
an argument, and the orchestrator takes the solver as a function
argument; the solver's own stdout parsing (the decision logic of
`Z3Solver::solve` after the child process returns) is embedded in
`z3_solve_result`.
-/

namespace CTR

/-! ## String helpers mirroring the Rust `str` operations used -/

/-- `pat` is a prefix of `s` (over characters). -/
def charsStartWith : List Char → List Char → Bool
  | [], _ => true
  | _ :: _, [] => false
  | p :: ps, c :: cs => p == c && charsStartWith ps cs

/-- `pat` occurs as a contiguous run somewhere in `s`. -/
def charsContains : List Char → List Char → Bool
  | [], pat => pat.isEmpty
  | c :: rest, pat => charsStartWith pat (c :: rest) || charsContains rest pat

/-- Rust `s.contains(pat)`: `pat` occurs as a contiguous substring of `s`. -/
def strContains (s pat : String) : Bool :=
  charsContains s.data pat.data

/-- Rust `s.ends_with(pat)`. -/
def strEndsWith (s pat : String) : Bool :=
  charsStartWith pat.data.reverse s.data.reverse

/-- Split at every character satisfying `p` (the separators are dropped;
adjacent separators yield empty pieces, like Rust `str::split`). -/
def charsSplitP (p : Char → Bool) : List Char → List (List Char)
  | [] => [[]]
  | c :: rest =>
    let r := charsSplitP p rest
    if p c then [] :: r
    else
      match r with
      | [] => [[c]]
      | h :: t => (c :: h) :: t

/-- Rust `s.split(sep)` for a single-character separator. -/
def strSplitChar (s : String) (sep : Char) : List String :=
  (charsSplitP (· == sep) s.data).map (fun cs => ⟨cs⟩)

/-- Rust `s.split(p)` for a character predicate. -/
def strSplitP (s : String) (p : Char → Bool) : List String :=
  (charsSplitP p s.data).map (fun cs => ⟨cs⟩)

/-- `String.intercalate`, structurally. -/
def strIntercalate (sep : String) : List String → String
  | [] => ""
  | [x] => x
  | x :: rest => x ++ sep ++ strIntercalate sep rest

/-- Rust `s.trim()` (ASCII whitespace). -/
def strTrim (s : String) : String :=
  ⟨((s.data.dropWhile Char.isWhitespace).reverse.dropWhile Char.isWhitespace).reverse⟩

/-- Rust `s.starts_with(c)` for a single character. -/
def startsWithChar (s : String) (c : Char) : Bool :=
  s.data.head? = some c

/-- Rust `s.contains(c)` for a single character. -/
def containsChar (s : String) (c : Char) : Bool :=
  s.data.contains c

/-- Rust `s.split_once(c)`: the parts before and after the first
occurrence of `c`, or `none` when `c` does not occur. -/
def splitOnce (s : String) (c : Char) : Option (String × String) :=
  match strSplitChar s c with
  | [] => none
  | [_] => none
  | p :: rest => some (p, strIntercalate (String.singleton c) rest)

/-- Rust `s.trim_matches(p)`: strip matching characters from both ends. -/
def trimMatches (s : String) (p : Char → Bool) : String :=
  ⟨((s.data.dropWhile p).reverse.dropWhile p).reverse⟩

/-- Rust `s.trim_start_matches(c)`. -/
def trimStartMatches (s : String) (c : Char) : String :=
  ⟨s.data.dropWhile (· = c)⟩

/-- Rust `s.lines()`: split on `'\n'`, dropping one trailing empty line
and a trailing `'\r'` on each line. -/
def rustLines (s : String) : List String :=
  let parts := strSplitChar s '\n'
  let parts := if parts.getLast? = some "" then parts.dropLast else parts
  parts.map fun l => if strEndsWith l "\r" then ⟨l.data.dropLast⟩ else l

/-! ## The analysis data model (`analysis/mod.rs`, `slicer.rs`) -/

/-- `SinkType` from `analysis/mod.rs`. -/
inductive SinkType where
  | sqlInjection
  | commandInjection
  | codeInjection
  | pathTraversal
  | deserialization
  | ssrf
  | xxe
deriving DecidableEq, Repr

/-- `SinkType::description`. -/
def SinkType.description : SinkType → String
  | .sqlInjection => "SQL Injection - User input in database query"
  | .commandInjection => "Command Injection - User input in shell command"
  | .codeInjection => "Code Injection - User input in eval/exec"
  | .pathTraversal => "Path Traversal - User input in file path"
  | .deserialization => "Insecure Deserialization - Untrusted data in pickle"
  | .ssrf => "Server-Side Request Forgery - User input in network request"
  | .xxe => "XML External Entity - User input in XML parser"

/-- `Sink` from `analysis/mod.rs`. -/
structure Sink where
  sink_type : SinkType
  line : Nat
  column : Nat
  code_snippet : String
  tainted_vars : List String
deriving DecidableEq, Repr

/-- `PathNode` from `analysis/mod.rs`. -/
structure PathNode where
  line : Nat
  code : String
  description : String
deriving DecidableEq, Repr

/-- `ExploitStatus` from `analysis/mod.rs`. -/
inductive ExploitStatus where
  | exploitable
  | safe
  | inconclusive
  | noSinksFound
deriving DecidableEq, Repr

/-- `AnalysisResult` from `analysis/mod.rs`.  `analysis_time_ms` is
wall-clock time in the Rust code; the embedding pins it to 0. -/
structure AnalysisResult where
  success : Bool
  status : ExploitStatus
  sinks : List Sink
  payload : Option String
  explanation : String
  attack_path : List PathNode
  analysis_time_ms : Nat
deriving DecidableEq, Repr

/-- `ValueSource` from `slicer.rs`. -/
inductive ValueSource where
  | literal
  | userInput (src : String)
  | derived
  | parameter
  | unknown
deriving DecidableEq, Repr

/-- `VariableDefinition` from `slicer.rs`. -/
structure VariableDefinition where
  name : String
  line : Nat
  value_source : ValueSource
  dependencies : List String
deriving DecidableEq, Repr

/-! ## The embedded tree-sitter syntax tree -/

/-- One tree-sitter node: kind name, named-ness, verbatim source text,
start position (0-indexed row and column) and the ordered children, each
optionally tagged with the tree-sitter field name it fills. -/
inductive PyNode where
  | mk (kind : String) (named : Bool) (text : String) (row : Nat) (col : Nat)
       (children : List (Option String × PyNode))

def PyNode.kind : PyNode → String
  | .mk k _ _ _ _ _ => k

def PyNode.named : PyNode → Bool
  | .mk _ n _ _ _ _ => n

def PyNode.text : PyNode → String
  | .mk _ _ t _ _ _ => t

def PyNode.row : PyNode → Nat
  | .mk _ _ _ r _ _ => r

def PyNode.col : PyNode → Nat
  | .mk _ _ _ _ c _ => c

def PyNode.children : PyNode → List (Option String × PyNode)
  | .mk _ _ _ _ _ cs => cs

/-- Tree-sitter `node.child_by_field_name(f)`. -/
def PyNode.childByField (n : PyNode) (f : String) : Option PyNode :=
  (n.children.find? (fun c => c.1 = some f)).map (·.2)

/-- Tree-sitter `node.children(&mut cursor)` (all children, in order). -/
def PyNode.childNodes (n : PyNode) : List PyNode :=
  n.children.map (·.2)

/-- Tree-sitter `node.named_children(&mut cursor)`. -/
def PyNode.namedChildren (n : PyNode) : List PyNode :=
  (n.childNodes).filter (·.named)

/-- Tree-sitter `node.child(0)` (first child, anonymous ones included). -/
def PyNode.child0 (n : PyNode) : Option PyNode :=
  n.childNodes.head?

theorem PyNode.sizeOf_mem_children {n : PyNode} {c : Option String × PyNode}
    (h : c ∈ n.children) : sizeOf c.2 < sizeOf n := by
  cases n with
  | mk k nm t r co cs =>
    simp only [PyNode.children] at h
    have h1 : sizeOf c < sizeOf cs := List.sizeOf_lt_of_mem h
    have h2 : sizeOf c.2 < sizeOf c := by
      obtain ⟨a, b⟩ := c
      simp only [Prod.mk.sizeOf_spec]
      omega
    simp only [PyNode.mk.sizeOf_spec]
    omega

theorem PyNode.sizeOf_mem_childNodes {n : PyNode} {p : PyNode}
    (h : p ∈ n.childNodes) : sizeOf p < sizeOf n := by
  simp only [PyNode.childNodes, List.mem_map] at h
  obtain ⟨c, hc, rfl⟩ := h
  exact PyNode.sizeOf_mem_children hc

theorem PyNode.sizeOf_children_lt (n : PyNode) : sizeOf n.children < sizeOf n := by
  cases n with
  | mk k nm t r co cs =>
    simp only [PyNode.children, PyNode.mk.sizeOf_spec]
    omega

theorem sizeOf_snd_lt_cons (c : Option String × PyNode) (cs : List (Option String × PyNode)) :
    sizeOf c.2 < sizeOf (c :: cs) := by
  obtain ⟨a, b⟩ := c
  simp only [Prod.mk.sizeOf_spec, List.cons.sizeOf_spec]
  omega

/-! ## Sink classifier (`analysis/python_parser.rs`) -/

def SQL_SINKS : List String := ["execute", "executemany", "raw", "execute_sql"]

def COMMAND_SINKS : List String :=
  ["system", "popen", "call", "run", "check_output", "check_call", "Popen",
   "getoutput", "getstatusoutput"]

def CODE_SINKS : List String := ["eval", "exec", "compile"]

def PATH_SINKS : List String :=
  ["open", "read_file", "write_file", "send_file", "remove", "unlink"]

def DESERIALIZE_SINKS : List String := ["loads", "load", "yaml.load"]

def SSRF_SINKS : List String := ["requests.get", "requests.post", "urlopen", "urlretrieve"]

def XXE_SINKS : List String := ["parse", "fromstring"]

def REGEX_SINKS : List String := ["compile", "match", "search", "findall", "sub"]

/-- `PythonParser::classify_sink`. -/
def classify_sink (function_name : String) : Option SinkType :=
  let method_name := ((strSplitChar function_name '.').getLast?).getD function_name
  if SQL_SINKS.contains method_name &&
     (strContains function_name "cursor" || strContains function_name "execute" ||
      strContains function_name "db" || strContains function_name "connection") then
    some .sqlInjection
  else if COMMAND_SINKS.contains method_name &&
     (strContains function_name "os." || strContains function_name "subprocess" ||
      method_name == "system" || method_name == "popen" ||
      method_name == "getoutput" || method_name == "getstatusoutput") then
    some .commandInjection
  else if CODE_SINKS.contains method_name then
    some .codeInjection
  else if PATH_SINKS.contains method_name then
    some .pathTraversal
  else if DESERIALIZE_SINKS.contains method_name &&
     (strContains function_name "pickle" || strContains function_name "marshal" ||
      strContains function_name "yaml") then
    some .deserialization
  else if SSRF_SINKS.any (fun s => strEndsWith function_name s) then
    some .ssrf
  else if XXE_SINKS.any (fun s => strEndsWith function_name s &&
      (strContains function_name "lxml" || strContains function_name "etree")) then
    some .xxe
  else if REGEX_SINKS.any (fun s => strEndsWith function_name s &&
      strContains function_name "re.") then
    some .codeInjection
  else if method_name == "eval" || method_name == "exec" then
    some .codeInjection
  else if method_name == "system" then
    some .commandInjection
  else
    none

mutual

/-- `PythonParser::extract_variables`. -/
def extract_variables (n : PyNode) : List String :=
  if n.kind = "identifier" then [n.text]
  else if n.kind = "string" ∨ n.kind = "concatenated_string" ∨ n.kind = "formatted_string" then
    extract_fstring_children n.children
  else
    extract_variables_list n.children
termination_by sizeOf n
decreasing_by
  all_goals try simp_wf
  all_goals exact PyNode.sizeOf_children_lt n

def extract_variables_list : List (Option String × PyNode) → List String
  | [] => []
  | c :: cs => extract_variables c.2 ++ extract_variables_list cs
termination_by cs => sizeOf cs
decreasing_by
  all_goals try simp_wf
  all_goals first
    | exact sizeOf_snd_lt_cons c cs
    | (simp only [List.cons.sizeOf_spec]; omega)

/-- The child loop of `PythonParser::extract_fstring_vars`. -/
def extract_fstring_children : List (Option String × PyNode) → List String
  | [] => []
  | c :: cs =>
    (if c.2.kind = "interpolation" ∨ c.2.kind = "format_expression" then
       extract_variables c.2
     else if c.2.kind = "concatenated_string" ∨ c.2.kind = "string" then
       extract_fstring_children c.2.children
     else []) ++ extract_fstring_children cs
termination_by cs => sizeOf cs
decreasing_by
  all_goals try simp_wf
  all_goals first
    | exact sizeOf_snd_lt_cons c cs
    | exact (calc sizeOf c.2.children < sizeOf c.2 := PyNode.sizeOf_children_lt c.2
        _ < sizeOf (c :: cs) := sizeOf_snd_lt_cons c cs)
    | (simp only [List.cons.sizeOf_spec]; omega)

end

/-- `PythonParser::extract_fstring_vars` (a loop over the node's children). -/
def extract_fstring_vars (n : PyNode) : List String :=
  extract_fstring_children n.children

/-- `PythonParser::extract_sql_tainted_vars`: only the first named child of
the argument list (the query position) is scanned. -/
def extract_sql_tainted_vars (args_node : PyNode) : List String :=
  match args_node.namedChildren with
  | [] => []
  | first :: _ => extract_variables first

/-- `PythonParser::check_call_node`. -/
def check_call_node (node : PyNode) : Option Sink :=
  match node.childByField "function" with
  | none => none
  | some function_node =>
    let function_text := function_node.text
    match classify_sink function_text with
    | none => none
    | some sink_type =>
      match node.childByField "arguments" with
      | none => none
      | some args_node =>
        let tainted_vars :=
          if sink_type = SinkType.sqlInjection then extract_sql_tainted_vars args_node
          else extract_variables args_node
        if tainted_vars.isEmpty then none
        else some { sink_type := sink_type, line := node.row + 1, column := node.col,
                    code_snippet := node.text, tainted_vars := tainted_vars }

mutual

/-- `PythonParser::walk_tree`: the current node's sink (when it is a `call`
that classifies) followed by the sinks of the children, in order. -/
def walk_tree (n : PyNode) : List Sink :=
  (if n.kind = "call" then (check_call_node n).toList else []) ++ walk_trees n.children
termination_by sizeOf n
decreasing_by
  all_goals try simp_wf
  exact PyNode.sizeOf_children_lt n

def walk_trees : List (Option String × PyNode) → List Sink
  | [] => []
  | c :: cs => walk_tree c.2 ++ walk_trees cs
termination_by cs => sizeOf cs
decreasing_by
  all_goals try simp_wf
  all_goals first
    | exact sizeOf_snd_lt_cons c cs
    | (simp only [List.cons.sizeOf_spec]; omega)

end

/-- `PythonParser::find_sinks` (the parse step is the tree argument). -/
def find_sinks (tree : PyNode) : List Sink :=
  walk_tree tree

/-! ## Backward slicer (`analysis/slicer.rs`) -/

def FLASK_ENTRY_POINTS : List String :=
  ["request.args", "request.form", "request.data", "request.json",
   "request.files", "request.values", "request.cookies", "request.headers"]

def CLI_ENTRY_POINTS : List String := ["sys.argv", "args.", "input("]

/-- The chained iterator `FLASK_ENTRY_POINTS.iter().chain(CLI_ENTRY_POINTS.iter())`
(`FASTAPI_ENTRY_POINTS` is empty and never chained in). -/
def ALL_ENTRY_POINTS : List String := FLASK_ENTRY_POINTS ++ CLI_ENTRY_POINTS

/-- The slicer's `definitions: HashMap<String, Vec<VariableDefinition>>`,
as an association list with unique keys. -/
abbrev DefMap := List (String × List VariableDefinition)

/-- `self.definitions.entry(k).or_insert_with(Vec::new).push(d)`. -/
def insert_def (m : DefMap) (k : String) (d : VariableDefinition) : DefMap :=
  if m.any (fun e => e.1 = k) then
    m.map (fun e => if e.1 = k then (e.1, e.2 ++ [d]) else e)
  else
    m ++ [(k, [d])]

/-- `HashSet<String>` insertion (order of the backing list is irrelevant:
the set is only read through membership). -/
def insert_taint (t : List String) (x : String) : List String :=
  if x ∈ t then t else t ++ [x]

mutual

/-- `BackwardSlicer::extract_identifiers`: `identifier` nodes contribute
their text, `attribute` nodes contribute their full dotted text, and the
walk always continues into the children. -/
def slicer_extract_identifiers (n : PyNode) : List String :=
  (if n.kind = "identifier" then [n.text]
   else if n.kind = "attribute" then [n.text]
   else []) ++ slicer_extract_identifiers_list n.children
termination_by sizeOf n
decreasing_by
  all_goals try simp_wf
  exact PyNode.sizeOf_children_lt n

def slicer_extract_identifiers_list : List (Option String × PyNode) → List String
  | [] => []
  | c :: cs => slicer_extract_identifiers c.2 ++ slicer_extract_identifiers_list cs
termination_by cs => sizeOf cs
decreasing_by
  all_goals try simp_wf
  all_goals first
    | exact sizeOf_snd_lt_cons c cs
    | (simp only [List.cons.sizeOf_spec]; omega)

end

/-- `BackwardSlicer::analyze_value`. -/
def analyze_value (n : PyNode) (value_text : String) : ValueSource × List String :=
  match ALL_ENTRY_POINTS.find? (fun ep => strContains value_text ep) with
  | some ep => (.userInput ep, [])
  | none =>
    if n.kind = "integer" ∨ n.kind = "float" ∨ n.kind = "true" ∨
       n.kind = "false" ∨ n.kind = "none" then
      (.literal, [])
    else
      let deps := slicer_extract_identifiers n
      if deps.isEmpty then (.literal, []) else (.derived, deps)

/-- The `VariableDefinition`s built by `BackwardSlicer::process_assignment`
(one per identifier target extracted from the left-hand side; an
augmented assignment appends the target itself to its dependencies). -/
def assignment_defs (n : PyNode) : List VariableDefinition :=
  match n.childByField "left" with
  | none => []
  | some left =>
    match n.childByField "right" with
    | none => []
    | some right =>
      let targets := slicer_extract_identifiers left
      let value_text := right.text
      let vsdeps := analyze_value right value_text
      targets.map fun var_name =>
        { name := var_name
          line := n.row + 1
          value_source := vsdeps.1
          dependencies := vsdeps.2 ++ (if n.kind = "augmented_assignment" then [var_name] else []) }

/-- `BackwardSlicer::process_assignment`: build and insert the definitions. -/
def process_assignment (n : PyNode) (m : DefMap) : DefMap :=
  (assignment_defs n).foldl (fun m d => insert_def m d.name d) m

/-- `BackwardSlicer::process_function_params`. -/
def process_function_params (n : PyNode) (m : DefMap) : DefMap :=
  match n.childByField "parameters" with
  | none => m
  | some params =>
    params.childNodes.foldl (fun m param =>
      if param.kind = "identifier" ∨ param.kind = "typed_parameter" then
        let param_name := param.text
        insert_def m param_name
          { name := param_name, line := param.row + 1,
            value_source := .parameter, dependencies := [] }
      else if param.kind = "default_parameter" ∨ param.kind = "typed_default_parameter" then
        match param.childByField "name" with
        | some name_node =>
          let param_name := name_node.text
          insert_def m param_name
            { name := param_name, line := param.row + 1,
              value_source := .parameter, dependencies := [] }
        | none => m
      else if param.kind = "list_splat_pattern" ∨ param.kind = "dictionary_splat_pattern" then
        match param.child0 with
        | some name_node =>
          let param_name := name_node.text
          insert_def m param_name
            { name := param_name, line := param.row + 1,
              value_source := .parameter, dependencies := [] }
        | none => m
      else m) m

mutual

/-- `BackwardSlicer::collect_definitions`: process the node, then recurse
into its children in order. -/
def collect_definitions (n : PyNode) (m : DefMap) : DefMap :=
  let m :=
    if n.kind = "assignment" ∨ n.kind = "augmented_assignment" then process_assignment n m
    else if n.kind = "function_definition" ∨ n.kind = "lambda" then process_function_params n m
    else m
  collect_definitions_list n.children m
termination_by sizeOf n
decreasing_by
  all_goals try simp_wf
  exact PyNode.sizeOf_children_lt n

def collect_definitions_list : List (Option String × PyNode) → DefMap → DefMap
  | [], m => m
  | c :: cs, m => collect_definitions_list cs (collect_definitions c.2 m)
termination_by cs => sizeOf cs
decreasing_by
  all_goals try simp_wf
  all_goals first
    | exact sizeOf_snd_lt_cons c cs
    | (simp only [List.cons.sizeOf_spec]; omega)

end

/-- `BackwardSlicer::identify_entry_points`. -/
def identify_entry_points (source : String) (m : DefMap) (tainted : List String) :
    List String :=
  let tainted := m.foldl (fun t e =>
    e.2.foldl (fun t d =>
      match d.value_source with
      | .userInput _ => insert_taint t e.1
      | .parameter => insert_taint t e.1
      | _ => t) t) tainted
  ALL_ENTRY_POINTS.foldl (fun t ep =>
    if strContains source ep then
      m.foldl (fun t e =>
        e.2.foldl (fun t d =>
          match d.value_source with
          | .userInput src => if strContains src ep then insert_taint t e.1 else t
          | _ => t) t) t
    else t) tainted

/-- The slicer's state after `BackwardSlicer::analyze` (the `path` field is
produced per-trace and passed around explicitly below). -/
structure SlicerState where
  definitions : DefMap
  tainted : List String
deriving DecidableEq, Repr

/-- `BackwardSlicer::analyze`: pre-seed `request`, collect definitions,
identify the entry points. -/
def slicer_analyze (source : String) (tree : PyNode) : SlicerState :=
  let tainted : List String := ["request"]
  let m := collect_definitions tree []
  { definitions := m, tainted := identify_entry_points source m tainted }

/-! ## The taint query (`BackwardSlicer::is_tainted_recursive`)

The Rust function is a DFS threading one mutable visited set through the
whole search.  It is embedded with an explicit fuel so that termination
is a *theorem* (`is_tainted_terminates`) rather than an artifact of the
embedding: `none` means the fuel ran out, and the sufficiency result
shows fuel `taint_bound` (the size of the name universe the search can
ever visit) never runs out. -/

/-- Every dependency name mentioned anywhere in the definition map. -/
def all_dep_names (m : DefMap) : List String :=
  (m.map (fun e => (e.2.map (fun d => d.dependencies)).join)).join

/-- The finite universe of names a taint query on `v` can ever visit. -/
def taint_univ (st : SlicerState) (v : String) : Finset String :=
  insert v (all_dep_names st.definitions).toFinset

/-- Fuel that provably suffices for the DFS started at `v`. -/
def taint_bound (st : SlicerState) (v : String) : Nat :=
  (taint_univ st v).card

mutual

/-- `BackwardSlicer::is_tainted_recursive`, fuel-indexed.  Returns the
boolean together with the final visited set; `none` on fuel exhaustion. -/
def taint_visit (fuel : Nat) (st : SlicerState) (name : String) (visited : Finset String) :
    Option (Bool × Finset String) :=
  if name ∈ visited then some (false, visited)
  else
    let visited := insert name visited
    if name ∈ st.tainted then some (true, visited)
    else
      match List.lookup name st.definitions with
      | none => some (false, visited)
      | some defs => taint_defs fuel st defs visited
termination_by (fuel, 2, 0)

/-- The `for def in defs` loop of `is_tainted_recursive`. -/
def taint_defs (fuel : Nat) (st : SlicerState) (defs : List VariableDefinition)
    (visited : Finset String) : Option (Bool × Finset String) :=
  match defs with
  | [] => some (false, visited)
  | d :: ds =>
    match d.value_source with
    | .userInput _ => some (true, visited)
    | .parameter => some (true, visited)
    | .derived =>
      match taint_deps fuel st d.dependencies visited with
      | none => none
      | some (true, v') => some (true, v')
      | some (false, v') => taint_defs fuel st ds v'
    | _ => taint_defs fuel st ds visited
termination_by (fuel, 1, defs.length)

/-- The `for dep in def.dependencies` loop of `is_tainted_recursive`. -/
def taint_deps (fuel : Nat) (st : SlicerState) (deps : List String)
    (visited : Finset String) : Option (Bool × Finset String) :=
  match deps with
  | [] => some (false, visited)
  | p :: ps =>
    match fuel with
    | 0 => none
    | f + 1 =>
      match taint_visit f st p visited with
      | none => none
      | some (true, v') => some (true, v')
      | some (false, v') => taint_deps (f + 1) st ps v'
termination_by (fuel, 0, deps.length)

end

/-- `BackwardSlicer::is_tainted` (and equally a call of
`is_tainted_recursive` on a fresh visited set). -/
def is_tainted (st : SlicerState) (v : String) : Bool :=
  match taint_visit (taint_bound st v) st v ∅ with
  | some (b, _) => b
  | none => false

/-- The visited set only grows during the DFS. -/
theorem taint_mono (fuel : Nat) :
    (∀ st n w r, taint_visit fuel st n w = some r → w ⊆ r.2) ∧
    (∀ st ds w r, taint_defs fuel st ds w = some r → w ⊆ r.2) ∧
    (∀ st ps w r, taint_deps fuel st ps w = some r → w ⊆ r.2) := by
  induction fuel with
  | zero =>
    have hdeps : ∀ (st : SlicerState) ps w r, taint_deps 0 st ps w = some r → w ⊆ r.2 := by
      intro st ps
      cases ps with
      | nil => intro w r h; simp [taint_deps] at h; simp [← h]
      | cons p ps => intro w r h; simp [taint_deps] at h
    have hdefs : ∀ (st : SlicerState) ds w r, taint_defs 0 st ds w = some r → w ⊆ r.2 := by
      intro st ds
      induction ds with
      | nil => intro w r h; simp [taint_defs] at h; simp [← h]
      | cons d ds ih =>
        intro w r h
        simp only [taint_defs] at h
        cases hv : d.value_source with
        | userInput s => rw [hv] at h; simp at h; simp [← h]
        | parameter => rw [hv] at h; simp at h; simp [← h]
        | derived =>
          rw [hv] at h
          cases hd : taint_deps 0 st d.dependencies w with
          | none => rw [hd] at h; simp at h
          | some q =>
            rw [hd] at h
            have hw : w ⊆ q.2 := hdeps st _ w q hd
            obtain ⟨b, w'⟩ := q
            cases b with
            | true => simp at h; rw [← h]; exact hw
            | false =>
              simp at h
              exact Finset.Subset.trans hw (ih w' r h)
        | literal => rw [hv] at h; exact ih w r h
        | unknown => rw [hv] at h; exact ih w r h
    have hvisit : ∀ (st : SlicerState) n w r, taint_visit 0 st n w = some r → w ⊆ r.2 := by
      intro st n w r h
      simp only [taint_visit] at h
      by_cases hw : n ∈ w
      · simp [hw] at h; simp [← h]
      · simp only [hw, if_false] at h
        have hsub : w ⊆ insert n w := Finset.subset_insert n w
        by_cases ht : n ∈ st.tainted
        · simp [ht] at h; rw [← h]; exact hsub
        · simp only [ht, if_false] at h
          cases hl : List.lookup n st.definitions with
          | none => rw [hl] at h; simp at h; rw [← h]; exact hsub
          | some defs =>
            rw [hl] at h
            exact Finset.Subset.trans hsub (hdefs st defs _ r h)
    exact ⟨hvisit, hdefs, hdeps⟩
  | succ f ihf =>
    have hdeps : ∀ (st : SlicerState) ps w r, taint_deps (f + 1) st ps w = some r → w ⊆ r.2 := by
      intro st ps
      induction ps with
      | nil => intro w r h; simp [taint_deps] at h; simp [← h]
      | cons p ps ih =>
        intro w r h
        simp only [taint_deps] at h
        cases hv : taint_visit f st p w with
        | none => rw [hv] at h; simp at h
        | some q =>
          rw [hv] at h
          have hw : w ⊆ q.2 := ihf.1 st p w q hv
          obtain ⟨b, w'⟩ := q
          cases b with
          | true => simp at h; rw [← h]; exact hw
          | false => simp at h; exact Finset.Subset.trans hw (ih w' r h)
    have hdefs : ∀ (st : SlicerState) ds w r, taint_defs (f + 1) st ds w = some r → w ⊆ r.2 := by
      intro st ds
      induction ds with
      | nil => intro w r h; simp [taint_defs] at h; simp [← h]
      | cons d ds ih =>
        intro w r h
        simp only [taint_defs] at h
        cases hv : d.value_source with
        | userInput s => rw [hv] at h; simp at h; simp [← h]
        | parameter => rw [hv] at h; simp at h; simp [← h]
        | derived =>
          rw [hv] at h
          cases hd : taint_deps (f + 1) st d.dependencies w with
          | none => rw [hd] at h; simp at h
          | some q =>
            rw [hd] at h
            have hw : w ⊆ q.2 := hdeps st _ w q hd
            obtain ⟨b, w'⟩ := q
            cases b with
            | true => simp at h; rw [← h]; exact hw
            | false => simp at h; exact Finset.Subset.trans hw (ih w' r h)
        | literal => rw [hv] at h; exact ih w r h
        | unknown => rw [hv] at h; exact ih w r h
    have hvisit : ∀ (st : SlicerState) n w r, taint_visit (f + 1) st n w = some r → w ⊆ r.2 := by
      intro st n w r h
      simp only [taint_visit] at h
      by_cases hw : n ∈ w
      · simp [hw] at h; simp [← h]
      · simp only [hw, if_false] at h
        have hsub : w ⊆ insert n w := Finset.subset_insert n w
        by_cases ht : n ∈ st.tainted
        · simp [ht] at h; rw [← h]; exact hsub
        · simp only [ht, if_false] at h
          cases hl : List.lookup n st.definitions with
          | none => rw [hl] at h; simp at h; rw [← h]; exact hsub
          | some defs =>
            rw [hl] at h
            exact Finset.Subset.trans hsub (hdefs st defs _ r h)
    exact ⟨hvisit, hdefs, hdeps⟩

/-- Successful results are stable under one more unit of fuel. -/
theorem taint_fuel_succ (fuel : Nat) :
    (∀ st n w r, taint_visit fuel st n w = some r → taint_visit (fuel + 1) st n w = some r) ∧
    (∀ st ds w r, taint_defs fuel st ds w = some r → taint_defs (fuel + 1) st ds w = some r) ∧
    (∀ st ps w r, taint_deps fuel st ps w = some r → taint_deps (fuel + 1) st ps w = some r) := by
  induction fuel with
  | zero =>
    have hdeps : ∀ (st : SlicerState) ps w r, taint_deps 0 st ps w = some r →
        taint_deps 1 st ps w = some r := by
      intro st ps
      cases ps with
      | nil => intro w r h; simpa [taint_deps] using h
      | cons p ps => intro w r h; simp [taint_deps] at h
    have hdefs : ∀ (st : SlicerState) ds w r, taint_defs 0 st ds w = some r →
        taint_defs 1 st ds w = some r := by
      intro st ds
      induction ds with
      | nil => intro w r h; simpa [taint_defs] using h
      | cons d ds ih =>
        intro w r h
        simp only [taint_defs] at h ⊢
        revert h
        cases hv : d.value_source <;> intro h
        case userInput s => exact h
        case parameter => exact h
        case derived =>
          have h' : (match taint_deps 0 st d.dependencies w with
              | none => none
              | some (true, v') => some (true, v')
              | some (false, v') => taint_defs 0 st ds v') = some r := h
          show (match taint_deps 1 st d.dependencies w with
              | none => none
              | some (true, v') => some (true, v')
              | some (false, v') => taint_defs 1 st ds v') = some r
          revert h'
          cases hd : taint_deps 0 st d.dependencies w <;> intro h'
          case none => simp at h'
          case some q =>
            rw [hdeps st _ w q hd]
            obtain ⟨b, w'⟩ := q
            cases b
            case true => exact h'
            case false => exact ih w' r h'
        case literal => exact ih w r h
        case unknown => exact ih w r h
    have hvisit : ∀ (st : SlicerState) n w r, taint_visit 0 st n w = some r →
        taint_visit 1 st n w = some r := by
      intro st n w r h
      simp only [taint_visit] at h ⊢
      by_cases hw : n ∈ w
      · simp only [hw, if_true] at h ⊢; exact h
      · simp only [hw, if_false] at h ⊢
        by_cases ht : n ∈ st.tainted
        · simp only [ht, if_true] at h ⊢; exact h
        · simp only [ht, if_false] at h ⊢
          revert h
          cases hl : List.lookup n st.definitions <;> intro h
          · exact h
          · rename_i defs
            exact hdefs st defs _ r h
    exact ⟨hvisit, hdefs, hdeps⟩
  | succ f ihf =>
    have hdeps : ∀ (st : SlicerState) ps w r, taint_deps (f + 1) st ps w = some r →
        taint_deps (f + 2) st ps w = some r := by
      intro st ps
      induction ps with
      | nil => intro w r h; simpa [taint_deps] using h
      | cons p ps ih =>
        intro w r h
        simp only [taint_deps] at h ⊢
        revert h
        cases hv : taint_visit f st p w <;> intro h
        case none => simp at h
        case some q =>
          rw [ihf.1 st p w q hv]
          obtain ⟨b, w'⟩ := q
          cases b
          case true => exact h
          case false => exact ih w' r h
    have hdefs : ∀ (st : SlicerState) ds w r, taint_defs (f + 1) st ds w = some r →
        taint_defs (f + 2) st ds w = some r := by
      intro st ds
      induction ds with
      | nil => intro w r h; simpa [taint_defs] using h
      | cons d ds ih =>
        intro w r h
        simp only [taint_defs] at h ⊢
        revert h
        cases hv : d.value_source <;> intro h
        case userInput s => exact h
        case parameter => exact h
        case derived =>
          have h' : (match taint_deps (f + 1) st d.dependencies w with
              | none => none
              | some (true, v') => some (true, v')
              | some (false, v') => taint_defs (f + 1) st ds v') = some r := h
          show (match taint_deps (f + 2) st d.dependencies w with
              | none => none
              | some (true, v') => some (true, v')
              | some (false, v') => taint_defs (f + 2) st ds v') = some r
          revert h'
          cases hd : taint_deps (f + 1) st d.dependencies w <;> intro h'
          case none => simp at h'
          case some q =>
            rw [hdeps st _ w q hd]
            obtain ⟨b, w'⟩ := q
            cases b
            case true => exact h'
            case false => exact ih w' r h'
        case literal => exact ih w r h
        case unknown => exact ih w r h
    have hvisit : ∀ (st : SlicerState) n w r, taint_visit (f + 1) st n w = some r →
        taint_visit (f + 2) st n w = some r := by
      intro st n w r h
      simp only [taint_visit] at h ⊢
      by_cases hw : n ∈ w
      · simp only [hw, if_true] at h ⊢; exact h
      · simp only [hw, if_false] at h ⊢
        by_cases ht : n ∈ st.tainted
        · simp only [ht, if_true] at h ⊢; exact h
        · simp only [ht, if_false] at h ⊢
          revert h
          cases hl : List.lookup n st.definitions <;> intro h
          · exact h
          · rename_i defs
            exact hdefs st defs _ r h
    exact ⟨hvisit, hdefs, hdeps⟩

/-- Successful results are stable under any additional fuel. -/
theorem taint_visit_fuel_le {f g : Nat} (hfg : f ≤ g) (st : SlicerState) (n : String)
    (w : Finset String) (r : Bool × Finset String) (h : taint_visit f st n w = some r) :
    taint_visit g st n w = some r := by
  induction g, hfg using Nat.le_induction with
  | base => exact h
  | succ g _ ih => exact (taint_fuel_succ g).1 st n w r ih

/-- Dependencies reachable through the definition map stay inside
`all_dep_names`. -/
theorem lookup_deps_mem (m : DefMap) (n : String) (ds : List VariableDefinition)
    (h : List.lookup n m = some ds) :
    ∀ d ∈ ds, ∀ p ∈ d.dependencies, p ∈ all_dep_names m := by
  induction m with
  | nil => simp [List.lookup] at h
  | cons e m ih =>
    simp only [List.lookup] at h
    revert h
    cases heq : (n == e.1) <;> intro h
    · intro d hd p hp
      have hmem := ih h d hd p hp
      have : all_dep_names (e :: m) =
          ((e.2.map (fun d => d.dependencies)).join) ++ all_dep_names m := by
        simp [all_dep_names]
      rw [this]
      exact List.mem_append_right _ hmem
    · have hds : ds = e.2 := by
        have := h
        simp only at this
        exact (Option.some.injEq _ _ ▸ this).symm
      subst hds
      intro d hd p hp
      have : all_dep_names (e :: m) =
          ((e.2.map (fun d => d.dependencies)).join) ++ all_dep_names m := by
        simp [all_dep_names]
      rw [this]
      refine List.mem_append_left _ ?_
      exact List.mem_join.mpr ⟨d.dependencies, List.mem_map.mpr ⟨d, hd, rfl⟩, hp⟩

/-- With enough fuel the DFS cannot run out: the measure is the number of
universe names not yet visited. -/
theorem taint_some (st : SlicerState) (univ : Finset String)
    (hclosed : ∀ n ds, List.lookup n st.definitions = some ds →
      ∀ d ∈ ds, ∀ p ∈ d.dependencies, p ∈ univ) :
    ∀ fuel : Nat,
    (∀ n w, n ∈ univ → (univ \ w).card ≤ fuel → (taint_visit fuel st n w).isSome = true) ∧
    (∀ ds w, (∀ d ∈ ds, ∀ p ∈ d.dependencies, p ∈ univ) → (univ \ w).card < fuel →
      (taint_defs fuel st ds w).isSome = true) ∧
    (∀ ps w, (∀ p ∈ ps, p ∈ univ) → (univ \ w).card < fuel →
      (taint_deps fuel st ps w).isSome = true) := by
  intro fuel
  induction fuel with
  | zero =>
    refine ⟨?_, ?_, ?_⟩
    · intro n w hn hc
      have hw : n ∈ w := by
        by_contra hnw
        have hmem : n ∈ univ \ w := Finset.mem_sdiff.mpr ⟨hn, hnw⟩
        have := Finset.card_pos.mpr ⟨n, hmem⟩
        omega
      simp [taint_visit, hw]
    · intro ds w _ hc; omega
    · intro ps w _ hc; omega
  | succ f ihf =>
    have hdeps : ∀ ps w, (∀ p ∈ ps, p ∈ univ) → (univ \ w).card < f + 1 →
        (taint_deps (f + 1) st ps w).isSome = true := by
      intro ps
      induction ps with
      | nil => intro w _ _; simp [taint_deps]
      | cons p ps ih =>
        intro w hmem hc
        have hp : p ∈ univ := hmem p (by simp)
        have hv : (taint_visit f st p w).isSome = true := ihf.1 p w hp (by omega)
        simp only [taint_deps]
        cases hvv : taint_visit f st p w with
        | none => rw [hvv] at hv; simp at hv
        | some q =>
          obtain ⟨b, w'⟩ := q
          have hsub : w ⊆ w' := (taint_mono f).1 st p w (b, w') hvv
          cases b with
          | true => simp
          | false =>
            have hc' : (univ \ w').card < f + 1 := by
              have hss : univ \ w' ⊆ univ \ w :=
                Finset.sdiff_subset_sdiff (Finset.Subset.refl univ) hsub
              have := Finset.card_le_card hss
              omega
            exact ih w' (fun x hx => hmem x (by simp [hx])) hc'
    have hdefs : ∀ ds w, (∀ d ∈ ds, ∀ p ∈ d.dependencies, p ∈ univ) →
        (univ \ w).card < f + 1 → (taint_defs (f + 1) st ds w).isSome = true := by
      intro ds
      induction ds with
      | nil => intro w _ _; simp [taint_defs]
      | cons d ds ih =>
        intro w hmem hc
        simp only [taint_defs]
        cases hv : d.value_source
        case userInput => simp
        case parameter => simp
        case derived =>
          show (match taint_deps (f + 1) st d.dependencies w with
              | none => none
              | some (true, v') => some (true, v')
              | some (false, v') => taint_defs (f + 1) st ds v').isSome = true
          have hd : (taint_deps (f + 1) st d.dependencies w).isSome = true :=
            hdeps d.dependencies w (fun p hp => hmem d (by simp) p hp) hc
          cases hdd : taint_deps (f + 1) st d.dependencies w with
          | none => rw [hdd] at hd; simp at hd
          | some q =>
            obtain ⟨b, w'⟩ := q
            have hsub : w ⊆ w' := (taint_mono (f + 1)).2.2 st d.dependencies w (b, w') hdd
            cases b with
            | true => simp
            | false =>
              have hc' : (univ \ w').card < f + 1 := by
                have hss : univ \ w' ⊆ univ \ w :=
                  Finset.sdiff_subset_sdiff (Finset.Subset.refl univ) hsub
                have := Finset.card_le_card hss
                omega
              exact ih w' (fun x hx => hmem x (by simp [hx])) hc'
        case literal =>
          exact ih w (fun x hx => hmem x (by simp [hx])) hc
        case unknown =>
          exact ih w (fun x hx => hmem x (by simp [hx])) hc
    have hvisit : ∀ n w, n ∈ univ → (univ \ w).card ≤ f + 1 →
        (taint_visit (f + 1) st n w).isSome = true := by
      intro n w hn hc
      simp only [taint_visit]
      by_cases hw : n ∈ w
      · simp [hw]
      · simp only [hw, if_false]
        by_cases ht : n ∈ st.tainted
        · simp [ht]
        · simp only [ht, if_false]
          cases hl : List.lookup n st.definitions
          · simp
          · rename_i defs
            have hmem : n ∈ univ \ w := Finset.mem_sdiff.mpr ⟨hn, hw⟩
            have hc' : (univ \ insert n w).card < f + 1 := by
              have h1 : univ \ insert n w ⊆ (univ \ w).erase n := by
                intro x hx
                rcases Finset.mem_sdiff.mp hx with ⟨hxu, hxi⟩
                refine Finset.mem_erase.mpr ⟨?_, Finset.mem_sdiff.mpr ⟨hxu, ?_⟩⟩
                · intro hxn; exact hxi (hxn ▸ Finset.mem_insert_self n w)
                · intro hxw; exact hxi (Finset.mem_insert_of_mem hxw)
              have h2 : ((univ \ w).erase n).card < (univ \ w).card :=
                Finset.card_erase_lt_of_mem hmem
              have := Finset.card_le_card h1
              omega
            exact hdefs defs (insert n w) (hclosed n defs hl) hc'
    exact ⟨hvisit, hdefs, hdeps⟩

/-! ## Constraint generator (`analysis/constraint_gen.rs`) -/

/-- `constraint_gen::is_valid_var_name`.  (`Char.isDigit`/`Char.isAlphanum`
stand in for Rust's Unicode `is_numeric`/`is_alphanumeric`; the analyzer
only ever sees ASCII identifiers.) -/
def is_valid_var_name (name : String) : Bool :=
  match name.data with
  | [] => false
  | c :: _ =>
    if c.isDigit then false
    else name.data.all (fun ch => ch.isAlphanum || ch = '_')

/-- `ConstraintGenerator::parse_f_string`. -/
def parse_f_string (expr : String) : String :=
  let content := trimMatches (trimStartMatches expr 'f') (fun c => c = '"' || c = '\'')
  let parts := strSplitChar content '\x7b' 
  if parts.length ≤ 1 then "\"" ++ content ++ "\""
  else
    let smt0 := "(str.++" ++
      (if (parts.headD "").isEmpty then "" else " \"" ++ parts.headD "" ++ "\"")
    let smt := parts.tail.foldl (fun acc part =>
      match splitOnce part '\x7d' with
      | some (var, literal) =>
        acc ++ " " ++ strTrim var ++
          (if literal.isEmpty then "" else " \"" ++ literal ++ "\"")
      | none => acc) smt0
    smt ++ ")"

/-- One step of the declaration loop of `ConstraintGenerator::generate_smt`:
the accumulated declaration text and the `declared` vector. -/
def smt_decl_step (acc : String × List String) (node : PathNode) : String × List String :=
  match splitOnce node.code '=' with
  | some (lhs, _) =>
    let var_name := strTrim lhs
    if !acc.2.contains var_name && is_valid_var_name var_name then
      (acc.1 ++ "(declare-const " ++ var_name ++ " String)\n", acc.2 ++ [var_name])
    else acc
  | none => acc

/-- The `declared` vector after the declaration loop. -/
def declared_vars (nodes : List PathNode) : List String :=
  (nodes.foldl smt_decl_step ("", [])).2

/-- The assertion block of `generate_smt` (its second loop). -/
def smt_asserts (nodes : List PathNode) (declared : List String) : String :=
  nodes.foldl (fun acc node =>
    match splitOnce node.code '=' with
    | some (lhs, rhs) =>
      let var_name := strTrim lhs
      let expr := strTrim rhs
      if startsWithChar expr 'f' && (containsChar expr '"' || containsChar expr '\'') then
        acc ++ "(assert (= " ++ var_name ++ " " ++ parse_f_string expr ++ "))\n"
      else if startsWithChar expr '"' || startsWithChar expr '\'' then
        acc ++ "(assert (= " ++ var_name ++ " \"" ++
          trimMatches expr (fun c => c = 'f' || c = '"' || c = '\'') ++ "\"))\n"
      else if declared.contains expr then
        acc ++ "(assert (= " ++ var_name ++ " " ++ expr ++ "))\n"
      else acc
    | none => acc) ""

/-- The goal's target variable: `sink_var` if declared, else the last
declared name, else `sink_var` itself. -/
def smt_target (nodes : List PathNode) (sink_var : String) : String :=
  let declared := declared_vars nodes
  if declared.contains sink_var then sink_var
  else (declared.getLast?).getD sink_var

/-- `ConstraintGenerator::generate_smt`. -/
def generate_smt (nodes : List PathNode) (sink_var : String) : String :=
  let decl := nodes.foldl smt_decl_step ("", [])
  "(set-logic QF_S)\n" ++ decl.1 ++ smt_asserts nodes decl.2 ++
    "(assert (str.contains " ++ smt_target nodes sink_var ++
    " \"' OR '1'='1\"))\n" ++ "(check-sat)\n" ++ "(get-model)\n"

/-! ## SMT driver output parsing (`analysis/solver.rs`)

`Z3Solver::solve` spawns a Python/Z3 child process; everything after
`wait_with_output` is pure and embedded here: `exit_success` is
`output.status.success()`, `stdout`/`stderr` the captured streams. -/

/-- The verdict logic at the end of `Z3Solver::solve`. -/
def z3_solve_result (exit_success : Bool) (stdout stderr : String) :
    Except String (Option String) :=
  if !exit_success || strContains stdout "ERROR:" then
    .error ("Z3 Error: " ++ stdout ++ "\nStderr: " ++ stderr)
  else if strContains stdout "SAT" then
    .ok (some (strIntercalate "\n" ((rustLines stdout).drop 1)))
  else if strContains stdout "UNSAT" then
    .ok none
  else
    .error ("Z3 returned UNKNOWN or unexpected output: " ++ stdout)

/-! ## Path construction (`BackwardSlicer::trace_to_entry_point`) -/

/-- Total number of `VariableDefinition`s in the map: bounds the visited
`(name, line)` pairs of `build_trace_recursive`. -/
def total_defs (m : DefMap) : Nat :=
  (m.map (fun e => e.2.length)).sum

/-- Depth budget for the trace walk; one unit is consumed per nested
`build_trace_recursive` call, and the walk can only nest one level per
newly visited `(name, line)` pair, so this never runs out. -/
def trace_fuel (st : SlicerState) : Nat :=
  total_defs st.definitions + 2

mutual

/-- `BackwardSlicer::build_trace_recursive` (fuel-indexed; the fuel is an
artifact of the embedding, see `trace_fuel`). -/
def build_trace_go (fuel : Nat) (st : SlicerState) (source_lines : List String)
    (var_name : String) (visited : List (String × Nat)) (path : List PathNode) :
    List (String × Nat) × List PathNode :=
  match List.lookup var_name st.definitions with
  | none => (visited, path)
  | some defs => build_trace_defs fuel st source_lines var_name defs visited path
termination_by (fuel, 2, 0)

/-- The `for def in defs` loop of `build_trace_recursive`. -/
def build_trace_defs (fuel : Nat) (st : SlicerState) (source_lines : List String)
    (var_name : String) (defs : List VariableDefinition)
    (visited : List (String × Nat)) (path : List PathNode) :
    List (String × Nat) × List PathNode :=
  match defs with
  | [] => (visited, path)
  | d :: ds =>
    if (var_name, d.line) ∈ visited then
      build_trace_defs fuel st source_lines var_name ds visited path
    else
      let visited := visited ++ [(var_name, d.line)]
      let code :=
        if d.line > 0 then strTrim ((source_lines.get? (d.line - 1)).getD "")
        else var_name ++ " = ..."
      let description :=
        match d.value_source with
        | .userInput src => "ENTRY: User input from " ++ src
        | .parameter => "ENTRY: Function parameter (potentially user-controlled)"
        | .derived => "FLOW: Variable derivation"
        | _ => "FLOW: Data transformation"
      let path :=
        if path.any (fun p => p.line = d.line) then path
        else path ++ [{ line := d.line, code := code, description := description }]
      let deps_to_trace := d.dependencies.filter
        (fun dep => dep ∈ st.tainted ∨ is_tainted st dep)
      let vp := build_trace_deps fuel st source_lines deps_to_trace visited path
      build_trace_defs fuel st source_lines var_name ds vp.1 vp.2
termination_by (fuel, 1, defs.length)

/-- The `for dep in deps_to_trace` loop of `build_trace_recursive`. -/
def build_trace_deps (fuel : Nat) (st : SlicerState) (source_lines : List String)
    (deps : List String) (visited : List (String × Nat)) (path : List PathNode) :
    List (String × Nat) × List PathNode :=
  match deps with
  | [] => (visited, path)
  | dep :: rest =>
    match fuel with
    | 0 => (visited, path)
    | f + 1 =>
      let vp := build_trace_go f st source_lines dep visited path
      build_trace_deps (f + 1) st source_lines rest vp.1 vp.2
termination_by (fuel, 0, deps.length)

end

/-- `BackwardSlicer::build_trace`. -/
def build_trace (st : SlicerState) (source_lines : List String) (var_name : String)
    (path : List PathNode) : List PathNode :=
  (build_trace_go (trace_fuel st) st source_lines var_name [] path).2

/-- `BackwardSlicer::trace_to_entry_point`: start the path at the sink,
take the first tainted variable of the sink, build its backward trace. -/
def trace_to_entry_point (st : SlicerState) (sink : Sink) (source : String) :
    Option (List PathNode) :=
  let path0 : List PathNode :=
    [{ line := sink.line, code := sink.code_snippet,
       description := "SINK: " ++ sink.sink_type.description }]
  match sink.tainted_vars.find? (fun v => is_tainted st v) with
  | some v => some (build_trace st (rustLines source) v path0)
  | none => none

/-! ## Orchestrator (`analysis/prover.rs`)

`ExploitProver::analyze`, with the Z3 child process abstracted as the
function argument `solve` (the composition with `z3_solve_result` is the
caller's choice) and the static payload catalog abstracted as
`payload_gen` (`ExploitProver::generate_payload`, pure text-formatting
that no reasoning below depends on).  The parse steps cannot fail in the
embedding (the tree is the input), so the two `Inconclusive` early
returns of `analyze` are unreachable here and are omitted. -/

def prover_analyze (solve : String → Except String (Option String))
    (payload_gen : Sink → String) (tree : PyNode) (source : String) : AnalysisResult :=
  let sinks := find_sinks tree
  if sinks.isEmpty then
    { success := true, status := .noSinksFound, sinks := [], payload := none,
      explanation := "No dangerous function calls (sinks) detected in this code.",
      attack_path := [], analysis_time_ms := 0 }
  else
    let st := slicer_analyze source tree
    let acc := sinks.foldl (fun (acc : List Sink × List PathNode × Option String) sink =>
      match trace_to_entry_point st sink source with
      | none => acc
      | some path =>
        let verdict : Bool × Option String :=
          if sink.sink_type = SinkType.sqlInjection then
            match solve (generate_smt path sink.code_snippet) with
            | .ok (some model) => (true, some model)
            | .ok none => (false, acc.2.2)
            | .error _ => (true, acc.2.2)
          else (true, acc.2.2)
        if verdict.1 then (acc.1 ++ [sink], acc.2.1 ++ path, verdict.2)
        else (acc.1, acc.2.1, verdict.2)) ([], [], none)
    let exploitable_sinks := acc.1
    let attack_paths := acc.2.1
    let z3_proof_model := acc.2.2
    if !exploitable_sinks.isEmpty then
      let primary_sink := exploitable_sinks.headD
        { sink_type := .sqlInjection, line := 0, column := 0, code_snippet := "",
          tainted_vars := [] }
      let payload := payload_gen primary_sink
      let explanation :=
        "EXPLOITABLE: " ++ primary_sink.sink_type.description ++ " detected at line " ++
        toString primary_sink.line ++
        ". User input flows to this sink without proper sanitization.\n\nProof-of-Concept Payload:\n" ++
        payload ++
        (match z3_proof_model with
         | some model =>
           "\n\nMathematical Proof (Z3 Model):\n--------------------------------\n" ++ model
         | none => "")
      { success := true, status := .exploitable, sinks := exploitable_sinks,
        payload := some payload, explanation := explanation,
        attack_path := attack_paths, analysis_time_ms := 0 }
    else
      { success := true, status := .safe, sinks := sinks, payload := none,
        explanation := "SAFE: Dangerous functions detected but no exploitable path from user input found. The code appears to be properly sanitized or uses safe patterns.",
        attack_path := [], analysis_time_ms := 0 }

/-- `ExploitProver::analyze_at_line`: run `analyze`, retain only sinks
within 5 lines of the target, and if none are left replace status and
explanation.  (Line numbers are far below `2^31`, so the Rust `as i32`
casts are the identity and the distance is modeled over `Int`.) -/
def analyze_at_line (solve : String → Except String (Option String))
    (payload_gen : Sink → String) (tree : PyNode) (source : String)
    (target_line : Nat) : AnalysisResult :=
  let result := prover_analyze solve payload_gen tree source
  let sinks := result.sinks.filter
    (fun s => ((s.line : Int) - (target_line : Int)).natAbs ≤ 5)
  if sinks.isEmpty then
    { result with
      sinks := sinks,
      status := .noSinksFound,
      explanation := "No dangerous function calls found near line " ++
        toString target_line ++ "." }
  else
    { result with sinks := sinks }

/-! ## Cross-file slicer (`analysis/cross_slicer.rs`)

The project indexer (`indexer.rs`) and the file system are the cross-file
slicer's environment: `CrossEnv.files` stands for `fs::read_to_string`
plus the tree-sitter parse (`none` = read error; the parse itself cannot
fail in the embedding), and `CrossEnv.resolve` for
`ProjectIndexer::resolve_symbol`. -/

/-- `indexer::SymbolKind`. -/
inductive SymbolKind where
  | function
  | classSym
  | variableSym
deriving DecidableEq, Repr

/-- The fields of `indexer::Symbol` that `cross_slicer.rs` reads. -/
structure ResolvedSymbol where
  file_path : String
  line : Nat
  kind : SymbolKind
deriving DecidableEq, Repr

/-- The cross-file slicer's environment. -/
structure CrossEnv where
  files : String → Option (String × PyNode)
  resolve : String → String → Option ResolvedSymbol

/-- `cross_slicer::CrossFileFlow` (paths as strings). -/
structure CrossFileFlow where
  caller_file : String
  caller_line : Nat
  function_called : String
  callee_file : String
  callee_line : Nat
  tainted_args : List String
deriving DecidableEq, Repr

/-- `cross_slicer::CrossFilePathNode`. -/
structure CrossFilePathNode where
  file_path : String
  line : Nat
  code : String
  node_type : String
  is_entry_point : Bool
  is_sink : Bool
deriving DecidableEq, Repr

/-- `cross_slicer::CrossFileAnalysisResult`. -/
structure CrossFileAnalysisResult where
  sinks : List Sink
  cross_file_flows : List CrossFileFlow
  attack_path : List CrossFilePathNode
deriving DecidableEq, Repr

/-- The empty result returned by the two recursion guards. -/
def empty_cross_result : CrossFileAnalysisResult :=
  { sinks := [], cross_file_flows := [], attack_path := [] }

/-- Rust's `#[derive(Debug)]` text of a `SinkType`, as used for the
`node_type` field via `format!("{:?}", sink.sink_type)`. -/
def SinkType.debugStr : SinkType → String
  | .sqlInjection => "SqlInjection"
  | .commandInjection => "CommandInjection"
  | .codeInjection => "CodeInjection"
  | .pathTraversal => "PathTraversal"
  | .deserialization => "Deserialization"
  | .ssrf => "Ssrf"
  | .xxe => "Xxe"

mutual

/-- `CrossFileSlicer::extract_identifiers_from_node`. -/
def cross_extract_ids (n : PyNode) : List String :=
  if n.kind = "identifier" then [n.text] else cross_extract_ids_list n.children
termination_by sizeOf n
decreasing_by
  all_goals try simp_wf
  exact PyNode.sizeOf_children_lt n

def cross_extract_ids_list : List (Option String × PyNode) → List String
  | [] => []
  | c :: cs => cross_extract_ids c.2 ++ cross_extract_ids_list cs
termination_by cs => sizeOf cs
decreasing_by
  all_goals try simp_wf
  all_goals first
    | exact sizeOf_snd_lt_cons c cs
    | (simp only [List.cons.sizeOf_spec]; omega)

end

mutual

/-- `CrossFileSlicer::find_function_calls`: callee text, 1-indexed line,
and the identifiers appearing anywhere in the argument list. -/
def find_function_calls (n : PyNode) : List (String × Nat × List String) :=
  (if n.kind = "call" then
     match n.childByField "function" with
     | some func_node =>
       let args :=
         match n.childByField "arguments" with
         | some args_node => cross_extract_ids_list args_node.children
         | none => []
       [(func_node.text, n.row + 1, args)]
     | none => []
   else []) ++ find_function_calls_list n.children
termination_by sizeOf n
decreasing_by
  all_goals try simp_wf
  exact PyNode.sizeOf_children_lt n

def find_function_calls_list : List (Option String × PyNode) → List (String × Nat × List String)
  | [] => []
  | c :: cs => find_function_calls c.2 ++ find_function_calls_list cs
termination_by cs => sizeOf cs
decreasing_by
  all_goals try simp_wf
  all_goals first
    | exact sizeOf_snd_lt_cons c cs
    | (simp only [List.cons.sizeOf_spec]; omega)

end

/-- The tainted-token enrichment of a sink's `tainted_vars` in
`analyze_file_internal` (split the snippet on non-word characters, keep
the tainted tokens). -/
def populate_sink_vars (st : SlicerState) (sink : Sink) : Sink :=
  let tokens := (strSplitP sink.code_snippet (fun c => !c.isAlphanum && c != '_')).filter
    (fun s => !s.isEmpty)
  { sink with tainted_vars := sink.tainted_vars ++ tokens.filter (fun t => is_tainted st t) }

/-- The reachability test applied to each sink of a recursively analyzed
callee (`sink_is_reachable` in `analyze_file_internal`): some passed
tainted argument and some sink-tainted variable relate as substrings, or
— the third disjunct of the source — the sink has any tainted variables
at all. -/
def sink_is_reachable (tainted_args : List String) (sink : Sink) : Bool :=
  tainted_args.any (fun arg =>
    sink.tainted_vars.any (fun tv =>
      strContains tv arg || strContains arg tv || !sink.tainted_vars.isEmpty))

/-- The parameterized-query test of `analyze_file_internal`. -/
def is_parameterized (sink : Sink) : Bool :=
  strContains sink.code_snippet ", params" ||
  strContains sink.code_snippet ", (" ||
  strContains sink.code_snippet "?"

mutual

/-- `CrossFileSlicer::analyze_file_internal`.  The pair's second component
is the `analyzed_files` set, threaded explicitly. -/
def analyze_file_internal (env : CrossEnv) (max_depth : Nat) (file_path : String)
    (depth : Nat) (analyzed : List String) :
    Except String CrossFileAnalysisResult × List String :=
  if hgt : depth > max_depth then (.ok empty_cross_result, analyzed)
  else if file_path ∈ analyzed then (.ok empty_cross_result, analyzed)
  else
    let analyzed := analyzed ++ [file_path]
    match env.files file_path with
    | none => (.error "read error", analyzed)
    | some src_tree =>
      let source := src_tree.1
      let tree := src_tree.2
      let st := slicer_analyze source tree
      let sinks := (find_sinks tree).map (populate_sink_vars st)
      let function_calls := find_function_calls tree
      let fp := process_calls env max_depth file_path st depth (Nat.le_of_not_lt hgt)
        function_calls [] [] analyzed
      let attack_path := fp.2.1 ++ sinks.map (fun sink =>
        { file_path := file_path, line := sink.line, code := sink.code_snippet,
          node_type := sink.sink_type.debugStr, is_entry_point := false,
          is_sink := true })
      (.ok { sinks := sinks, cross_file_flows := fp.1, attack_path := attack_path },
       fp.2.2)
termination_by (max_depth + 1 - depth, 1, 0)

/-- The `for (call_name, call_line, args) in function_calls` loop of
`analyze_file_internal`, accumulating flows and attack-path nodes. -/
def process_calls (env : CrossEnv) (max_depth : Nat) (file_path : String)
    (st : SlicerState) (depth : Nat) (hd : depth ≤ max_depth)
    (calls : List (String × Nat × List String))
    (flows : List CrossFileFlow) (path : List CrossFilePathNode)
    (analyzed : List String) :
    List CrossFileFlow × List CrossFilePathNode × List String :=
  match calls with
  | [] => (flows, path, analyzed)
  | (call_name, call_line, args) :: rest =>
    let resolved := (env.resolve file_path call_name).bind (fun sym =>
      if sym.file_path ≠ file_path ∧ sym.kind = SymbolKind.function then
        some (sym.file_path, sym.line)
      else none)
    match resolved with
    | none => process_calls env max_depth file_path st depth hd rest flows path analyzed
    | some fl =>
      let callee_file := fl.1
      let callee_line := fl.2
      let tainted_args := args.filter (fun a => is_tainted st a)
      if tainted_args.isEmpty then
        process_calls env max_depth file_path st depth hd rest flows path analyzed
      else
        let flow : CrossFileFlow :=
          { caller_file := file_path, caller_line := call_line,
            function_called := call_name, callee_file := callee_file,
            callee_line := callee_line, tainted_args := tainted_args }
        let flows := flows ++ [flow]
        let call_node : CrossFilePathNode :=
          { file_path := file_path, line := call_line,
            code := call_name ++ "(...)", node_type := "CROSS_FILE_CALL",
            is_entry_point := false, is_sink := false }
        let path := path ++ [call_node]
        let sub := analyze_file_internal env max_depth callee_file (depth + 1) analyzed
        match sub.1 with
        | .error _ =>
          process_calls env max_depth file_path st depth hd rest flows path sub.2
        | .ok sub_result =>
          let path := sub_result.sinks.foldl (fun path sink =>
            if sink_is_reachable tainted_args sink && !is_parameterized sink then
              let sink_node : CrossFilePathNode :=
                { file_path := callee_file, line := sink.line,
                  code := sink.code_snippet, node_type := sink.sink_type.debugStr,
                  is_entry_point := false, is_sink := true }
              path ++ [sink_node]
            else path) path
          let flows := flows ++ sub_result.cross_file_flows
          process_calls env max_depth file_path st depth hd rest flows path sub.2
termination_by (max_depth + 1 - depth, 0, calls.length)

end

/-- `CrossFileSlicer::analyze_file`: clear the `analyzed_files` guard and
start at depth 0 (`max_depth` is 3 in `CrossFileSlicer::new`). -/
def analyze_file (env : CrossEnv) (max_depth : Nat) (file_path : String) :
    Except String CrossFileAnalysisResult × List String :=
  analyze_file_internal env max_depth file_path 0 []

/-! ## Syntactic occurrence of identifiers (support for the
parameterized-query refinement claims) -/

mutual

/-- The texts of all `identifier` descendants of a node (the node itself
included): the specification's notion of an identifier syntactically
occurring in an expression. -/
def identTexts (n : PyNode) : List String :=
  (if n.kind = "identifier" then [n.text] else []) ++ identTexts_list n.children
termination_by sizeOf n
decreasing_by
  all_goals try simp_wf
  exact PyNode.sizeOf_children_lt n

def identTexts_list : List (Option String × PyNode) → List String
  | [] => []
  | c :: cs => identTexts c.2 ++ identTexts_list cs
termination_by cs => sizeOf cs
decreasing_by
  all_goals try simp_wf
  all_goals first
    | exact sizeOf_snd_lt_cons c cs
    | (simp only [List.cons.sizeOf_spec]; omega)

end

mutual

/-- Everything `extract_variables` returns is the text of an identifier
occurring in the scanned node. -/
theorem extract_variables_sub (n : PyNode) :
    ∀ v ∈ extract_variables n, v ∈ identTexts n := by
  intro v hv
  rw [extract_variables] at hv
  rw [identTexts]
  by_cases h1 : n.kind = "identifier"
  · rw [if_pos h1] at hv
    rw [if_pos h1]
    exact List.mem_append_left _ hv
  · rw [if_neg h1] at hv
    rw [if_neg h1]
    simp only [List.nil_append]
    by_cases h2 : n.kind = "string" ∨ n.kind = "concatenated_string" ∨
        n.kind = "formatted_string"
    · rw [if_pos h2] at hv
      exact extract_fstring_children_sub n.children v hv
    · rw [if_neg h2] at hv
      exact extract_variables_list_sub n.children v hv
termination_by (sizeOf n, 1)
decreasing_by
  all_goals try simp_wf
  all_goals exact Prod.Lex.left _ _ (PyNode.sizeOf_children_lt n)

theorem extract_variables_list_sub :
    ∀ (cs : List (Option String × PyNode)) (v : String),
      v ∈ extract_variables_list cs → v ∈ identTexts_list cs
  | [], v, hv => by
    rw [extract_variables_list] at hv; cases hv
  | c :: cs', v, hv => by
    rw [extract_variables_list] at hv
    rw [identTexts_list]
    rcases List.mem_append.mp hv with h | h
    · exact List.mem_append_left _ (extract_variables_sub c.2 v h)
    · exact List.mem_append_right _ (extract_variables_list_sub cs' v h)
termination_by cs => (sizeOf cs, 0)
decreasing_by
  all_goals try simp_wf
  all_goals first
    | exact Prod.Lex.left _ _ (sizeOf_snd_lt_cons c cs')
    | exact Prod.Lex.left _ _ (by (try simp only [List.cons.sizeOf_spec]); omega)

theorem extract_fstring_children_sub :
    ∀ (cs : List (Option String × PyNode)) (v : String),
      v ∈ extract_fstring_children cs → v ∈ identTexts_list cs
  | [], v, hv => by
    rw [extract_fstring_children] at hv; cases hv
  | c :: cs', v, hv => by
    rw [extract_fstring_children] at hv
    rw [identTexts_list]
    rcases List.mem_append.mp hv with h | h
    · by_cases hk1 : c.2.kind = "interpolation" ∨ c.2.kind = "format_expression"
      · rw [if_pos hk1] at h
        exact List.mem_append_left _ (extract_variables_sub c.2 v h)
      · rw [if_neg hk1] at h
        by_cases hk2 : c.2.kind = "concatenated_string" ∨ c.2.kind = "string"
        · rw [if_pos hk2] at h
          refine List.mem_append_left _ ?_
          have hmem := extract_fstring_children_sub c.2.children v h
          rw [identTexts]
          exact List.mem_append_right _ hmem
        · rw [if_neg hk2] at h
          cases h
    · exact List.mem_append_right _ (extract_fstring_children_sub cs' v h)
termination_by cs => (sizeOf cs, 0)
decreasing_by
  all_goals try simp_wf
  all_goals first
    | exact Prod.Lex.left _ _ (sizeOf_snd_lt_cons c cs')
    | exact Prod.Lex.left _ _ (calc
        sizeOf c.2.children < sizeOf c.2 := PyNode.sizeOf_children_lt c.2
        _ < sizeOf (c :: cs') := sizeOf_snd_lt_cons c cs')
    | exact Prod.Lex.left _ _ (by (try simp only [List.cons.sizeOf_spec]); omega)

end

/-- A literal leaf node (`integer`, `float`, `true`, `false`, `none`). -/
def is_literal_leaf (n : PyNode) : Bool :=
  ((n.kind == "integer") || (n.kind == "float") || (n.kind == "true") ||
   (n.kind == "false") || (n.kind == "none")) && n.children.isEmpty

/-- A string node's children contain no interpolations, recursively. -/
def pure_string_children : List (Option String × PyNode) → Bool
  | [] => true
  | c :: cs =>
    (if c.2.kind = "interpolation" ∨ c.2.kind = "format_expression" then false
     else if c.2.kind = "concatenated_string" ∨ c.2.kind = "string" then
       pure_string_children c.2.children
     else true) && pure_string_children cs
termination_by cs => sizeOf cs
decreasing_by
  all_goals try simp_wf
  all_goals first
    | exact (calc
        sizeOf c.2.children < sizeOf c.2 := PyNode.sizeOf_children_lt c.2
        _ < sizeOf (c :: cs) := sizeOf_snd_lt_cons c cs)
    | (simp only [List.cons.sizeOf_spec]; omega)

/-- A pure literal in argument position: a literal leaf, or a (possibly
concatenated, possibly f-prefixed) string with no interpolations. -/
def pure_literal_arg (n : PyNode) : Bool :=
  is_literal_leaf n ||
  (((n.kind == "string") || (n.kind == "concatenated_string") ||
    (n.kind == "formatted_string")) && pure_string_children n.children)

theorem extract_fstring_children_of_pure :
    ∀ (cs : List (Option String × PyNode)),
      pure_string_children cs = true → extract_fstring_children cs = []
  | [], _ => by rw [extract_fstring_children]
  | c :: cs', h => by
    rw [pure_string_children] at h
    rw [extract_fstring_children]
    rw [Bool.and_eq_true] at h
    obtain ⟨h1, h2⟩ := h
    rw [extract_fstring_children_of_pure cs' h2]
    by_cases hk1 : c.2.kind = "interpolation" ∨ c.2.kind = "format_expression"
    · rw [if_pos hk1] at h1; cases h1
    · rw [if_neg hk1] at h1
      rw [if_neg hk1]
      by_cases hk2 : c.2.kind = "concatenated_string" ∨ c.2.kind = "string"
      · rw [if_pos hk2] at h1
        rw [if_pos hk2]
        rw [extract_fstring_children_of_pure c.2.children h1]
        rfl
      · rw [if_neg hk2]
        rfl
termination_by cs => sizeOf cs
decreasing_by
  all_goals try simp_wf
  all_goals first
    | ((try simp only [List.cons.sizeOf_spec]); omega)
    | exact (calc
        sizeOf c.2.children < sizeOf c.2 := PyNode.sizeOf_children_lt c.2
        _ < sizeOf (c :: cs') := sizeOf_snd_lt_cons c cs')

theorem extract_variables_of_pure (n : PyNode)
    (h : pure_literal_arg n = true) : extract_variables n = [] := by
  rw [pure_literal_arg] at h
  rw [Bool.or_eq_true] at h
  rcases h with h | h
  · rw [is_literal_leaf] at h
    rw [Bool.and_eq_true] at h
    obtain ⟨hk, hc⟩ := h
    have hkind : n.kind = "integer" ∨ n.kind = "float" ∨ n.kind = "true" ∨
        n.kind = "false" ∨ n.kind = "none" := by
      simp only [Bool.or_eq_true, beq_iff_eq] at hk
      tauto
    have hne : ¬ n.kind = "identifier" := by
      rcases hkind with h | h | h | h | h <;> simp [h]
    have hns : ¬ (n.kind = "string" ∨ n.kind = "concatenated_string" ∨
        n.kind = "formatted_string") := by
      rcases hkind with h | h | h | h | h <;> simp [h]
    rw [extract_variables, if_neg hne, if_neg hns]
    have : n.children = [] := by
      cases hcc : n.children with
      | nil => rfl
      | cons a l => rw [hcc] at hc; simp [List.isEmpty] at hc
    rw [this, extract_variables_list]
  · rw [Bool.and_eq_true] at h
    obtain ⟨hk, hp⟩ := h
    have hkind : n.kind = "string" ∨ n.kind = "concatenated_string" ∨
        n.kind = "formatted_string" := by
      simp only [Bool.or_eq_true, beq_iff_eq] at hk
      tauto
    have hne : ¬ n.kind = "identifier" := by
      rcases hkind with h | h | h <;> simp [h]
    rw [extract_variables, if_neg hne, if_pos hkind]
    exact extract_fstring_children_of_pure n.children hp

/-- `check_call_node` never emits a sink with empty `tainted_vars`. -/
theorem check_call_node_nonempty (node : PyNode) (s : Sink)
    (h : check_call_node node = some s) : s.tainted_vars ≠ [] := by
  rw [check_call_node] at h
  obtain ⟨f, hf⟩ : ∃ f, node.childByField "function" = f := ⟨_, rfl⟩
  rw [hf] at h
  cases f with
  | none => simp at h
  | some function_node =>
    simp only at h
    obtain ⟨c, hc⟩ : ∃ c, classify_sink function_node.text = c := ⟨_, rfl⟩
    rw [hc] at h
    cases c with
    | none => simp at h
    | some ty =>
      obtain ⟨a, ha⟩ : ∃ a, node.childByField "arguments" = a := ⟨_, rfl⟩
      rw [ha] at h
      cases a with
      | none => simp at h
      | some args_node =>
        simp only at h
        obtain ⟨tv, htv⟩ : ∃ tv,
            (if ty = SinkType.sqlInjection then extract_sql_tainted_vars args_node
             else extract_variables args_node) = tv := ⟨_, rfl⟩
        rw [htv] at h
        by_cases he : tv.isEmpty
        · rw [if_pos he] at h; cases h
        · rw [if_neg he] at h
          have hs := Option.some.inj h
          intro habs
          rw [← hs] at habs
          simp only at habs
          rw [habs] at he
          simp at he

mutual

/-- Every sink collected by the tree walk has non-empty `tainted_vars`. -/
theorem walk_tree_nonempty (n : PyNode) :
    ∀ s ∈ walk_tree n, s.tainted_vars ≠ [] := by
  intro s hs
  rw [walk_tree] at hs
  rcases List.mem_append.mp hs with h | h
  · by_cases hk : n.kind = "call"
    · rw [if_pos hk] at h
      obtain ⟨cc, hcc⟩ : ∃ cc, check_call_node n = cc := ⟨_, rfl⟩
      rw [hcc] at h
      cases cc with
      | none => cases h
      | some sk =>
        simp only [Option.toList] at h
        rcases List.mem_singleton.mp h with rfl
        exact check_call_node_nonempty n s hcc
    · rw [if_neg hk] at h; cases h
  · exact walk_trees_nonempty n.children s h
termination_by (sizeOf n, 1)
decreasing_by
  all_goals try simp_wf
  all_goals exact Prod.Lex.left _ _ (PyNode.sizeOf_children_lt n)

theorem walk_trees_nonempty :
    ∀ (cs : List (Option String × PyNode)) (s : Sink),
      s ∈ walk_trees cs → s.tainted_vars ≠ []
  | [], s, hs => by rw [walk_trees] at hs; cases hs
  | c :: cs', s, hs => by
    rw [walk_trees] at hs
    rcases List.mem_append.mp hs with h | h
    · exact walk_tree_nonempty c.2 s h
    · exact walk_trees_nonempty cs' s h
termination_by cs => (sizeOf cs, 0)
decreasing_by
  all_goals try simp_wf
  all_goals first
    | exact Prod.Lex.left _ _ (sizeOf_snd_lt_cons c cs')
    | exact Prod.Lex.left _ _ (by (try simp only [List.cons.sizeOf_spec]); omega)

end

/-! ## Structure of the generated SMT script (support for C9) -/

/-- One `(declare-const … String)` line. -/
def decl_line (v : String) : String :=
  "(declare-const " ++ v ++ " String)\n"

/-- The declaration block for a list of names. -/
def decls_text : List String → String
  | [] => ""
  | v :: rest => decl_line v ++ decls_text rest

/-- The names the declaration loop appends when started with `declared`
already containing `l`. -/
def smt_new_decls : List PathNode → List String → List String
  | [], _ => []
  | node :: rest, l =>
    match splitOnce node.code '=' with
    | some pr =>
      let v := strTrim pr.1
      if !l.contains v && is_valid_var_name v then v :: smt_new_decls rest (l ++ [v])
      else smt_new_decls rest l
    | none => smt_new_decls rest l

/-- The declaration fold computes exactly the new names and their
declaration lines. -/
theorem smt_decl_fold_eq (nodes : List PathNode) :
    ∀ (st : String) (l : List String),
      (nodes.foldl smt_decl_step (st, l)).1 = st ++ decls_text (smt_new_decls nodes l) ∧
      (nodes.foldl smt_decl_step (st, l)).2 = l ++ smt_new_decls nodes l := by
  induction nodes with
  | nil => intro st l; simp [smt_new_decls, decls_text]
  | cons node rest ih =>
    intro st l
    rw [List.foldl_cons, smt_new_decls]
    rw [smt_decl_step]
    obtain ⟨pr, hpr⟩ : ∃ pr, splitOnce node.code '=' = pr := ⟨_, rfl⟩
    rw [hpr]
    cases pr with
    | none => exact ih st l
    | some pr =>
      simp only
      by_cases hc : !l.contains (strTrim pr.1) && is_valid_var_name (strTrim pr.1)
      · rw [if_pos hc, if_pos hc]
        have e : st ++ "(declare-const " ++ strTrim pr.1 ++ " String)\n" =
            st ++ decl_line (strTrim pr.1) := by
          simp [decl_line, String.append_assoc]
        have h2 := ih (st ++ decl_line (strTrim pr.1)) (l ++ [strTrim pr.1])
        constructor
        · rw [e, h2.1, decls_text, String.append_assoc]
        · rw [e, h2.2, List.append_assoc]
          simp
      · rw [if_neg hc, if_neg hc]
        exact ih st l

/-- The declaration loop never repeats a name. -/
theorem smt_new_decls_nodup (nodes : List PathNode) :
    ∀ l : List String, (∀ v ∈ smt_new_decls nodes l, v ∉ l) ∧
      (smt_new_decls nodes l).Nodup := by
  induction nodes with
  | nil => intro l; simp [smt_new_decls]
  | cons node rest ih =>
    intro l
    rw [smt_new_decls]
    obtain ⟨pr, hpr⟩ : ∃ pr, splitOnce node.code '=' = pr := ⟨_, rfl⟩
    rw [hpr]
    cases pr with
    | none => exact ih l
    | some pr =>
      simp only
      by_cases hc : !l.contains (strTrim pr.1) && is_valid_var_name (strTrim pr.1)
      · rw [if_pos hc]
        have hnc : strTrim pr.1 ∉ l := by
          rw [Bool.and_eq_true] at hc
          have h1 := hc.1
          simp only [Bool.not_eq_true'] at h1
          intro habs
          have h2 : l.contains (strTrim pr.1) = true := by simpa using habs
          rw [h1] at h2
          cases h2
        have h2 := ih (l ++ [strTrim pr.1])
        constructor
        · intro v hv
          rcases List.mem_cons.mp hv with rfl | hv
          · exact hnc
          · intro habs
            exact h2.1 v hv (List.mem_append_left _ habs)
        · rw [List.nodup_cons]
          refine ⟨?_, h2.2⟩
          intro habs
          exact h2.1 _ habs (List.mem_append_right _ (List.mem_singleton.mpr rfl))
      · rw [if_neg hc]
        exact ih l

/-- Membership in the declared names: exactly the valid trimmed left-hand
sides of `=`-splittable node codes (or the seed list). -/
theorem smt_new_decls_mem (nodes : List PathNode) :
    ∀ (l : List String) (v : String),
      (v ∈ l ++ smt_new_decls nodes l) ↔
      (v ∈ l ∨ (is_valid_var_name v = true ∧
        ∃ node ∈ nodes, ∃ pr, splitOnce node.code '=' = some pr ∧ strTrim pr.1 = v)) := by
  induction nodes with
  | nil => intro l v; simp [smt_new_decls]
  | cons node rest ih =>
    intro l v
    rw [smt_new_decls]
    obtain ⟨pr, hpr⟩ : ∃ pr, splitOnce node.code '=' = pr := ⟨_, rfl⟩
    rw [hpr]
    cases pr with
    | none =>
      rw [ih l v]
      constructor
      · rintro (h | h)
        · exact Or.inl h
        · exact Or.inr ⟨h.1, by
            obtain ⟨nd, hnd, pr, hpr2, hv⟩ := h.2
            exact ⟨nd, List.mem_cons_of_mem _ hnd, pr, hpr2, hv⟩⟩
      · rintro (h | ⟨hval, nd, hnd, pr2, hpr2, hv⟩)
        · exact Or.inl h
        · rcases List.mem_cons.mp hnd with rfl | hnd
          · rw [hpr] at hpr2; cases hpr2
          · exact Or.inr ⟨hval, nd, hnd, pr2, hpr2, hv⟩
    | some pr =>
      simp only
      by_cases hc : !l.contains (strTrim pr.1) && is_valid_var_name (strTrim pr.1)
      · rw [if_pos hc]
        rw [Bool.and_eq_true] at hc
        have hvalid : is_valid_var_name (strTrim pr.1) = true := hc.2
        have hmem := ih (l ++ [strTrim pr.1]) v
        constructor
        · intro h
          have h' : v ∈ (l ++ [strTrim pr.1]) ++ smt_new_decls rest (l ++ [strTrim pr.1]) := by
            rcases List.mem_append.mp h with h | h
            · exact List.mem_append_left _ (List.mem_append_left _ h)
            · rcases List.mem_cons.mp h with rfl | h
              · exact List.mem_append_left _
                  (List.mem_append_right _ (List.mem_singleton.mpr rfl))
              · exact List.mem_append_right _ h
          rcases (hmem.mp h') with h'' | h''
          · rcases List.mem_append.mp h'' with h3 | h3
            · exact Or.inl h3
            · rcases List.mem_singleton.mp h3 with rfl
              exact Or.inr ⟨hvalid, node, List.mem_cons_self _ _, pr, hpr, rfl⟩
          · obtain ⟨hval, nd, hnd, pr2, hpr2, hv⟩ := h''
            exact Or.inr ⟨hval, nd, List.mem_cons_of_mem _ hnd, pr2, hpr2, hv⟩
        · intro h
          have h' : v ∈ (l ++ [strTrim pr.1]) ++ smt_new_decls rest (l ++ [strTrim pr.1]) := by
            rcases h with h | ⟨hval, nd, hnd, pr2, hpr2, hv⟩
            · exact List.mem_append_left _ (List.mem_append_left _ h)
            · rcases List.mem_cons.mp hnd with rfl | hnd
              · rw [hpr] at hpr2
                have : pr = pr2 := Option.some.inj hpr2
                subst this
                subst hv
                exact List.mem_append_left _
                  (List.mem_append_right _ (List.mem_singleton.mpr rfl))
              · exact hmem.mpr (Or.inr ⟨hval, nd, hnd, pr2, hpr2, hv⟩)
          rcases List.mem_append.mp h' with h3 | h3
          · rcases List.mem_append.mp h3 with h4 | h4
            · exact List.mem_append_left _ h4
            · rcases List.mem_singleton.mp h4 with rfl
              exact List.mem_append_right _ (List.mem_cons_self _ _)
          · exact List.mem_append_right _ (List.mem_cons_of_mem _ h3)
      · rw [if_neg hc]
        rw [ih l v]
        have hcontains : strTrim pr.1 ∈ l ∨ is_valid_var_name (strTrim pr.1) = false := by
          by_cases hm : strTrim pr.1 ∈ l
          · exact Or.inl hm
          · right
            by_cases hvv : is_valid_var_name (strTrim pr.1)
            · exfalso
              apply hc
              rw [Bool.and_eq_true]
              refine ⟨?_, hvv⟩
              simp only [Bool.not_eq_true']
              by_cases hcc : l.contains (strTrim pr.1)
              · exact absurd (by simpa using hcc) hm
              · simpa using hcc
            · simpa using hvv
        constructor
        · rintro (h | h)
          · exact Or.inl h
          · obtain ⟨hval, nd, hnd, pr2, hpr2, hv⟩ := h
            exact Or.inr ⟨hval, nd, List.mem_cons_of_mem _ hnd, pr2, hpr2, hv⟩
        · rintro (h | ⟨hval, nd, hnd, pr2, hpr2, hv⟩)
          · exact Or.inl h
          · rcases List.mem_cons.mp hnd with rfl | hnd
            · rw [hpr] at hpr2
              have : pr = pr2 := Option.some.inj hpr2
              subst this
              rcases hcontains with hm | hm
              · exact Or.inl (hv ▸ hm)
              · rw [hv] at hm; rw [hval] at hm; cases hm
            · exact Or.inr ⟨hval, nd, hnd, pr2, hpr2, hv⟩

/-- The generated script in closed form. -/
theorem generate_smt_shape (nodes : List PathNode) (sink_var : String) :
    generate_smt nodes sink_var =
      "(set-logic QF_S)\n" ++ decls_text (declared_vars nodes) ++
      smt_asserts nodes (declared_vars nodes) ++
      "(assert (str.contains " ++ smt_target nodes sink_var ++
      " \"' OR '1'='1\"))\n" ++ "(check-sat)\n" ++ "(get-model)\n" := by
  rw [generate_smt]
  have h := smt_decl_fold_eq nodes "" []
  rw [declared_vars]
  rw [h.1, h.2]
  simp only [List.nil_append, String.append_assoc]
  rfl

/-- C6: for every slicer state — cyclic dependency graphs included — and
every variable name, the embedded `is_tainted_recursive` DFS completes:
with fuel `taint_bound st v` (the size of the finite name universe the
visited-set cycle guard confines the search to) and with any larger fuel
it returns one determined boolean, the value `is_tainted st v`. -/
theorem is_tainted_terminates (st : SlicerState) (v : String) (fuel : Nat)
    (h : taint_bound st v ≤ fuel) :
    ∃ b w, taint_visit (taint_bound st v) st v ∅ = some (b, w) ∧
      taint_visit fuel st v ∅ = some (b, w) ∧ is_tainted st v = b := by
  have hclosed : ∀ n ds, List.lookup n st.definitions = some ds →
      ∀ d ∈ ds, ∀ p ∈ d.dependencies, p ∈ taint_univ st v := by
    intro n ds hl d hd p hp
    have hmem := lookup_deps_mem st.definitions n ds hl d hd p hp
    rw [taint_univ]
    exact Finset.mem_insert_of_mem (List.mem_toFinset.mpr hmem)
  have hv : v ∈ taint_univ st v := Finset.mem_insert_self _ _
  have hcard : (taint_univ st v \ ∅).card ≤ taint_bound st v := by
    rw [Finset.sdiff_empty, taint_bound]
  have hsome := (taint_some st (taint_univ st v) hclosed (taint_bound st v)).1 v ∅ hv hcard
  obtain ⟨⟨b, w⟩, hbw⟩ := Option.isSome_iff_exists.mp hsome
  refine ⟨b, w, hbw, taint_visit_fuel_le h st v ∅ (b, w) hbw, ?_⟩
  rw [is_tainted, hbw]

/-- C2 (amended): the condition under which `analyze_file_internal`
appends a callee sink to the attack path is `sink_is_reachable … &&
!is_parameterized …`; with at least one tainted argument passed (the loop
only reaches the test with a non-empty `tainted_args`) it collapses to
"the sink has any tainted variables at all and does not look
parameterized" — the substring disjuncts the spec describes are made
irrelevant by the third disjunct `!sink.tainted_vars.is_empty()`. -/
theorem sink_inclusion_collapses (tainted_args : List String) (sink : Sink)
    (h : tainted_args ≠ []) :
    (sink_is_reachable tainted_args sink && !is_parameterized sink) =
      (!sink.tainted_vars.isEmpty && !is_parameterized sink) := by
  cases tainted_args with
  | nil => exact absurd rfl h
  | cons a rest =>
    obtain ⟨tv, htv⟩ : ∃ tv, sink.tainted_vars = tv := ⟨_, rfl⟩
    cases tv with
    | nil => simp [sink_is_reachable, htv]
    | cons t ts => simp [sink_is_reachable, htv]

/-! ## Concrete syntax trees and environments

The trees below transcribe the tree-sitter-python parse of the quoted
sources (node kinds, field tags, named-ness and 0-indexed positions as
tree-sitter reports them). -/

/-- An anonymous (punctuation/keyword) node. -/
def tsAnon (kind text : String) (row col : Nat) : PyNode :=
  .mk kind false text row col []

/-- A named `identifier` node. -/
def tsIdent (text : String) (row col : Nat) : PyNode :=
  .mk "identifier" true text row col []

/-- The scenario input `cursor.execute("SELECT * FROM users WHERE id = ?", (user_id,))`. -/
def c3_source : String :=
  "cursor.execute(\"SELECT * FROM users WHERE id = ?\", (user_id,))"

/-- Its parse tree. -/
def c3_tree : PyNode :=
  .mk "module" true c3_source 0 0
    [(none, .mk "expression_statement" true c3_source 0 0
      [(none, .mk "call" true c3_source 0 0
        [(some "function", .mk "attribute" true "cursor.execute" 0 0
          [(some "object", tsIdent "cursor" 0 0),
           (none, tsAnon "." "." 0 6),
           (some "attribute", tsIdent "execute" 0 7)]),
         (some "arguments", .mk "argument_list" true
            "(\"SELECT * FROM users WHERE id = ?\", (user_id,))" 0 14
           [(none, tsAnon "(" "(" 0 14),
            (none, .mk "string" true "\"SELECT * FROM users WHERE id = ?\"" 0 15
              [(none, tsAnon "string_start" "\"" 0 15),
               (none, tsAnon "string_content" "SELECT * FROM users WHERE id = ?" 0 16),
               (none, tsAnon "string_end" "\"" 0 48)]),
            (none, tsAnon "," "," 0 49),
            (none, .mk "tuple" true "(user_id,)" 0 51
              [(none, tsAnon "(" "(" 0 51),
               (none, tsIdent "user_id" 0 52),
               (none, tsAnon "," "," 0 59),
               (none, tsAnon ")" ")" 0 60)]),
            (none, tsAnon ")" ")" 0 61)])])])]

/-- A solver stub (never reached on the inputs it is used with). -/
def no_solver : String → Except String (Option String) := fun _ => .error "unavailable"

/-- A payload-catalog stub. -/
def empty_payload : Sink → String := fun _ => ""

/-- Caller file of the cross-file scenario: `g(request)`. -/
def main_src : String := "g(request)"

/-- Callee file of the cross-file scenario: `cursor.execute(zzz)`. -/
def utils_src : String := "cursor.execute(zzz)"

def main_tree : PyNode :=
  .mk "module" true main_src 0 0
    [(none, .mk "expression_statement" true main_src 0 0
      [(none, .mk "call" true "g(request)" 0 0
        [(some "function", tsIdent "g" 0 0),
         (some "arguments", .mk "argument_list" true "(request)" 0 1
           [(none, tsAnon "(" "(" 0 1), (none, tsIdent "request" 0 2),
            (none, tsAnon ")" ")" 0 9)])])])]

/-- The callee's dangerous call, also used on its own as a witness input. -/
def utils_call : PyNode :=
  .mk "call" true "cursor.execute(zzz)" 0 0
    [(some "function", .mk "attribute" true "cursor.execute" 0 0
      [(some "object", tsIdent "cursor" 0 0),
       (none, tsAnon "." "." 0 6),
       (some "attribute", tsIdent "execute" 0 7)]),
     (some "arguments", .mk "argument_list" true "(zzz)" 0 14
       [(none, tsAnon "(" "(" 0 14), (none, tsIdent "zzz" 0 15),
        (none, tsAnon ")" ")" 0 18)])]

def utils_tree : PyNode :=
  .mk "module" true utils_src 0 0
    [(none, .mk "expression_statement" true utils_src 0 0 [(none, utils_call)])]

/-- The two-file workspace: `main.py` calls `g`, which the indexer
resolves to a function in `utils.py`. -/
def c2_env : CrossEnv :=
  { files := fun p =>
      if p = "main.py" then some (main_src, main_tree)
      else if p = "utils.py" then some (utils_src, utils_tree)
      else none,
    resolve := fun from_file name =>
      if from_file = "main.py" ∧ name = "g" then
        some { file_path := "utils.py", line := 1, kind := .function }
      else none }

/-- The slicer state both scenario files produce: no definitions, only the
pre-seeded `request` taint. -/
def st0 : SlicerState := { definitions := [], tainted := ["request"] }

/-- The callee's sink as the classifier reports it. -/
def utils_sink : Sink :=
  { sink_type := .sqlInjection, line := 1, column := 0,
    code_snippet := "cursor.execute(zzz)", tainted_vars := ["zzz"] }

theorem c2_slicer_main : slicer_analyze main_src main_tree = st0 := by
  simp [slicer_analyze, collect_definitions, collect_definitions_list, main_tree,
        main_src, tsAnon, tsIdent, identify_entry_points, insert_taint,
        ALL_ENTRY_POINTS, FLASK_ENTRY_POINTS, CLI_ENTRY_POINTS, strContains,
        charsContains, charsStartWith, st0, PyNode.kind, PyNode.children]

theorem c2_slicer_utils : slicer_analyze utils_src utils_tree = st0 := by
  simp [slicer_analyze, collect_definitions, collect_definitions_list, utils_tree,
        utils_call, utils_src, tsAnon, tsIdent, identify_entry_points, insert_taint,
        ALL_ENTRY_POINTS, FLASK_ENTRY_POINTS, CLI_ENTRY_POINTS, strContains,
        charsContains, charsStartWith, st0, PyNode.kind, PyNode.children]

theorem c2_sinks_main : find_sinks main_tree = [] := by
  simp [find_sinks, walk_tree, walk_trees, check_call_node, classify_sink, main_tree,
        main_src, tsAnon, tsIdent, PyNode.childByField, PyNode.children, PyNode.kind,
        PyNode.text, strContains, charsContains, charsStartWith, strSplitChar,
        charsSplitP, strEndsWith, SQL_SINKS, COMMAND_SINKS, CODE_SINKS, PATH_SINKS,
        DESERIALIZE_SINKS, SSRF_SINKS, XXE_SINKS, REGEX_SINKS]

theorem c2_sinks_utils : find_sinks utils_tree = [utils_sink] := by
  simp [find_sinks, walk_tree, walk_trees, check_call_node, classify_sink, utils_tree,
        utils_call, utils_src, tsAnon, tsIdent, PyNode.childByField, PyNode.children,
        PyNode.kind, PyNode.text, PyNode.named, PyNode.namedChildren, PyNode.childNodes,
        PyNode.row, PyNode.col, extract_sql_tainted_vars, extract_variables,
        extract_variables_list, extract_fstring_children, strContains, charsContains,
        charsStartWith, strSplitChar, charsSplitP, strEndsWith, utils_sink,
        SQL_SINKS, COMMAND_SINKS, CODE_SINKS, PATH_SINKS, DESERIALIZE_SINKS,
        SSRF_SINKS, XXE_SINKS, REGEX_SINKS]

theorem c2_taint_request : is_tainted st0 "request" = true := by
  simp [is_tainted, taint_visit, taint_bound, taint_univ, all_dep_names, st0]

theorem c2_taint_cursor : is_tainted st0 "cursor" = false := by
  simp [is_tainted, taint_visit, taint_bound, taint_univ, all_dep_names, st0,
        List.lookup]

theorem c2_taint_execute : is_tainted st0 "execute" = false := by
  simp [is_tainted, taint_visit, taint_bound, taint_univ, all_dep_names, st0,
        List.lookup]

theorem c2_taint_zzz : is_tainted st0 "zzz" = false := by
  simp [is_tainted, taint_visit, taint_bound, taint_univ, all_dep_names, st0,
        List.lookup]

theorem c2_taint_empty : is_tainted st0 "" = false := by
  simp [is_tainted, taint_visit, taint_bound, taint_univ, all_dep_names, st0,
        List.lookup]

theorem c2_pop_utils : populate_sink_vars st0 utils_sink = utils_sink := by
  simp [populate_sink_vars, utils_sink, strSplitP, charsSplitP, String.isEmpty,
        c2_taint_cursor, c2_taint_execute, c2_taint_zzz, c2_taint_empty]

theorem c2_calls_main : find_function_calls main_tree = [("g", 1, ["request"])] := by
  simp [find_function_calls, find_function_calls_list, cross_extract_ids,
        cross_extract_ids_list, main_tree, main_src, tsAnon, tsIdent,
        PyNode.childByField, PyNode.children, PyNode.kind, PyNode.text, PyNode.row]

theorem c2_calls_utils :
    find_function_calls utils_tree = [("cursor.execute", 1, ["zzz"])] := by
  simp [find_function_calls, find_function_calls_list, cross_extract_ids,
        cross_extract_ids_list, utils_tree, utils_call, utils_src, tsAnon, tsIdent,
        PyNode.childByField, PyNode.children, PyNode.kind, PyNode.text, PyNode.row]

/-- The callee's sink as an attack-path node. -/
def utils_sink_node : CrossFilePathNode :=
  { file_path := "utils.py", line := 1, code := "cursor.execute(zzz)",
    node_type := "SqlInjection", is_entry_point := false, is_sink := true }

/-- The recorded cross-file flow. -/
def c2_flow : CrossFileFlow :=
  { caller_file := "main.py", caller_line := 1, function_called := "g",
    callee_file := "utils.py", callee_line := 1, tainted_args := ["request"] }

/-- The `CROSS_FILE_CALL` attack-path node. -/
def c2_call_node : CrossFilePathNode :=
  { file_path := "main.py", line := 1, code := "g(...)",
    node_type := "CROSS_FILE_CALL", is_entry_point := false, is_sink := false }

theorem c2_env_files_main : c2_env.files "main.py" = some (main_src, main_tree) := rfl

theorem c2_env_files_utils : c2_env.files "utils.py" = some (utils_src, utils_tree) := rfl

theorem c2_env_resolve_g :
    c2_env.resolve "main.py" "g" =
      some { file_path := "utils.py", line := 1, kind := .function } := rfl

theorem c2_env_resolve_exec : c2_env.resolve "utils.py" "cursor.execute" = none := rfl

theorem utils_sink_line : utils_sink.line = 1 := rfl

theorem utils_sink_snippet : utils_sink.code_snippet = "cursor.execute(zzz)" := rfl

theorem utils_sink_type : utils_sink.sink_type = SinkType.sqlInjection := rfl

theorem utils_sink_vars : utils_sink.tainted_vars = ["zzz"] := rfl

theorem c2_utils_internal :
    analyze_file_internal c2_env 3 "utils.py" 1 ["main.py"] =
      (.ok { sinks := [utils_sink], cross_file_flows := [],
             attack_path := [utils_sink_node] },
       ["main.py", "utils.py"]) := by
  rw [analyze_file_internal]
  simp [c2_env_files_utils, c2_slicer_utils, c2_sinks_utils, c2_pop_utils,
        c2_calls_utils, process_calls, c2_env_resolve_exec, utils_sink_node,
        SinkType.debugStr, utils_sink_line, utils_sink_snippet, utils_sink_type,
        empty_cross_result]

theorem c2_main_run :
    analyze_file c2_env 3 "main.py" =
      (.ok { sinks := [], cross_file_flows := [c2_flow],
             attack_path := [c2_call_node, utils_sink_node] },
       ["main.py", "utils.py"]) := by
  rw [analyze_file, analyze_file_internal]
  simp [c2_env_files_main, c2_slicer_main, c2_sinks_main, c2_calls_main, process_calls,
        c2_env_resolve_g, c2_taint_request, c2_utils_internal, sink_is_reachable,
        is_parameterized, utils_sink_vars, utils_sink_snippet, utils_sink_line,
        utils_sink_type, utils_sink_node, c2_flow, c2_call_node, SinkType.debugStr,
        strContains, charsContains, charsStartWith, empty_cross_result]


/-! ## The claims -/

/-- C1: the spec says a solver stdout whose first line is `UNSAT` yields the
"no model" outcome `Ok(None)`.  The code checks `stdout.contains("SAT")`
first, and `"UNSAT"` contains `"SAT"` as a substring, so the very input the
spec describes takes the SAT branch and returns a (degenerate) model
`Ok(Some(…))` — which the orchestrator then counts as exploitable. -/
theorem z3_unsat_misread :
    z3_solve_result true "UNSAT\n" "" = .ok (some "") ∧
    ¬ z3_solve_result true "UNSAT\n" "" = .ok none := by
  constructor
  · rfl
  · rw [show z3_solve_result true "UNSAT\n" "" = .ok (some "") from rfl]
    simp

/-- C2 (counterexample): a two-file run in which the callee's sink is
appended to the attack path although no substring relation in either
direction holds between the passed tainted argument (`request`) and any
sink-tainted variable (`zzz`).  The claimed condition (a) is false, the
sink is not parameterized, and the sink node is still the last element of
the attack path. -/
theorem cross_file_inclusion_counterexample :
    analyze_file c2_env 3 "main.py" =
      (.ok { sinks := [], cross_file_flows := [c2_flow],
             attack_path := [c2_call_node, utils_sink_node] },
       ["main.py", "utils.py"]) ∧
    c2_flow.tainted_args = ["request"] ∧
    (analyze_file_internal c2_env 3 "utils.py" 1 ["main.py"]).1 =
      .ok { sinks := [utils_sink], cross_file_flows := [],
            attack_path := [utils_sink_node] } ∧
    utils_sink.tainted_vars = ["zzz"] ∧
    strContains "zzz" "request" = false ∧
    strContains "request" "zzz" = false ∧
    is_parameterized utils_sink = false ∧
    utils_sink_node =
      { file_path := "utils.py", line := utils_sink.line,
        code := utils_sink.code_snippet, node_type := utils_sink.sink_type.debugStr,
        is_entry_point := false, is_sink := true } := by
  refine ⟨c2_main_run, rfl, ?_, rfl, by decide, by decide, by decide, rfl⟩
  rw [c2_utils_internal]

theorem sink_inclusion_collapses_witness :
    (["request"] : List String) ≠ [] ∧
    (sink_is_reachable ["request"] utils_sink && !is_parameterized utils_sink) =
      (!utils_sink.tainted_vars.isEmpty && !is_parameterized utils_sink) :=
  ⟨by simp, sink_inclusion_collapses ["request"] utils_sink (by simp)⟩

/-- The parameterized-query input of C3 produces no sink at all: its first
positional argument is a plain string literal, so `check_call_node` extracts
no identifiers and emits nothing. -/
theorem c3_sinks : find_sinks c3_tree = [] := by
  simp [find_sinks, walk_tree, walk_trees, check_call_node, classify_sink, c3_tree,
        c3_source, tsAnon, tsIdent, PyNode.childByField, PyNode.children, PyNode.kind,
        PyNode.text, PyNode.named, PyNode.namedChildren, PyNode.childNodes,
        extract_sql_tainted_vars, extract_variables, extract_variables_list,
        extract_fstring_children, strContains, charsContains, charsStartWith,
        strSplitChar, charsSplitP, strEndsWith, SQL_SINKS, COMMAND_SINKS, CODE_SINKS,
        PATH_SINKS, DESERIALIZE_SINKS, SSRF_SINKS, XXE_SINKS, REGEX_SINKS]

/-- C3 (amended): on `cursor.execute("SELECT * FROM users WHERE id = ?",
(user_id,))` the analysis finds no sink — so far the claim is right — but
the resulting status is `NoSinksFound`, not `Safe`: the no-sinks early
return of `analyze` fires before any safety verdict is reached. -/
theorem parameterized_query_no_sinks :
    prover_analyze no_solver empty_payload c3_tree c3_source =
      { success := true, status := .noSinksFound, sinks := [], payload := none,
        explanation := "No dangerous function calls (sinks) detected in this code.",
        attack_path := [], analysis_time_ms := 0 } := by
  simp [prover_analyze, c3_sinks]

/-- C3 (counterexample): the status the claim predicts (`Safe`) differs
from the one the code produces (`NoSinksFound`) on the claim's own input. -/
theorem parameterized_query_not_safe :
    (prover_analyze no_solver empty_payload c3_tree c3_source).status =
      ExploitStatus.noSinksFound ∧
    (prover_analyze no_solver empty_payload c3_tree c3_source).status ≠
      ExploitStatus.safe := by
  constructor
  · simp [prover_analyze, c3_sinks]
  · simp [prover_analyze, c3_sinks]

/-- The argument list of `utils_call`, named for witness use. -/
def utils_args : PyNode :=
  .mk "argument_list" true "(zzz)" 0 14
    [(none, tsAnon "(" "(" 0 14), (none, tsIdent "zzz" 0 15),
     (none, tsAnon ")" ")" 0 18)]

/-- C4: a sink classified as SQL injection only ever lists identifiers that
syntactically occur in the first positional argument of the call —
`extract_sql_tainted_vars` scans the first named child of the argument
list and nothing else — and a call whose first argument is a pure literal
is not emitted as a sink at all. -/
theorem sql_sink_first_arg_only (node args_node first : PyNode) (s : Sink)
    (ha : node.childByField "arguments" = some args_node)
    (hf : args_node.namedChildren.head? = some first) :
    (check_call_node node = some s → s.sink_type = SinkType.sqlInjection →
      ∀ v ∈ s.tainted_vars, v ∈ identTexts first) ∧
    (pure_literal_arg first = true →
      (∀ fn, node.childByField "function" = some fn →
        classify_sink fn.text = some SinkType.sqlInjection) →
      check_call_node node = none) := by
  obtain ⟨rest, hnc⟩ : ∃ rest, args_node.namedChildren = first :: rest := by
    cases hch : args_node.namedChildren with
    | nil => rw [hch] at hf; cases hf
    | cons a l =>
      rw [hch] at hf
      exact ⟨l, by rw [List.head?] at hf; rw [Option.some.inj hf]⟩
  have hsql : extract_sql_tainted_vars args_node = extract_variables first := by
    rw [extract_sql_tainted_vars, hnc]
  constructor
  · intro h hty v hv
    rw [check_call_node] at h
    obtain ⟨f, hfn⟩ : ∃ f, node.childByField "function" = f := ⟨_, rfl⟩
    rw [hfn] at h
    cases f with
    | none => cases h
    | some function_node =>
      simp only at h
      obtain ⟨c, hc⟩ : ∃ c, classify_sink function_node.text = c := ⟨_, rfl⟩
      rw [hc] at h
      cases c with
      | none => cases h
      | some ty =>
        rw [ha] at h
        simp only at h
        obtain ⟨tv, htv⟩ : ∃ tv,
            (if ty = SinkType.sqlInjection then extract_sql_tainted_vars args_node
             else extract_variables args_node) = tv := ⟨_, rfl⟩
        rw [htv] at h
        by_cases he : tv.isEmpty
        · rw [if_pos he] at h; cases h
        · rw [if_neg he] at h
          have hs := Option.some.inj h
          have hty2 : ty = SinkType.sqlInjection := by
            rw [← hs] at hty
            exact hty
          rw [if_pos hty2, hsql] at htv
          have hvars : s.tainted_vars = tv := by rw [← hs]
          rw [hvars, ← htv] at hv
          exact extract_variables_sub first v hv
  · intro hpure hcls
    rw [check_call_node]
    obtain ⟨f, hfn⟩ : ∃ f, node.childByField "function" = f := ⟨_, rfl⟩
    rw [hfn]
    cases f with
    | none => rfl
    | some function_node =>
      simp only
      rw [hcls function_node hfn]
      rw [ha]
      simp only [if_pos rfl]
      rw [hsql, extract_variables_of_pure first hpure]
      rfl

theorem sql_sink_first_arg_only_witness :
    utils_call.childByField "arguments" = some utils_args ∧
    utils_args.namedChildren.head? = some (tsIdent "zzz" 0 15) ∧
    ((check_call_node utils_call = some utils_sink →
      utils_sink.sink_type = SinkType.sqlInjection →
      ∀ v ∈ utils_sink.tainted_vars, v ∈ identTexts (tsIdent "zzz" 0 15)) ∧
     (pure_literal_arg (tsIdent "zzz" 0 15) = true →
      (∀ fn, utils_call.childByField "function" = some fn →
        classify_sink fn.text = some SinkType.sqlInjection) →
      check_call_node utils_call = none)) :=
  ⟨rfl, rfl,
   sql_sink_first_arg_only utils_call utils_args (tsIdent "zzz" 0 15) utils_sink
     rfl rfl⟩

/-- C5: every sink the classifier reports carries a non-empty
`tainted_vars` list — `check_call_node` short-circuits to `None` when the
extracted identifier set is empty, and `find_sinks` only collects what
`check_call_node` emits. -/
theorem find_sinks_vars_nonempty (tree : PyNode) (s : Sink)
    (hs : s ∈ find_sinks tree) : s.tainted_vars ≠ [] := by
  rw [find_sinks] at hs
  exact walk_tree_nonempty tree s hs

theorem find_sinks_vars_nonempty_witness :
    utils_sink ∈ find_sinks utils_tree ∧ utils_sink.tainted_vars ≠ [] :=
  ⟨by simp [c2_sinks_utils],
   find_sinks_vars_nonempty utils_tree utils_sink (by simp [c2_sinks_utils])⟩

/-- A definition map whose dependency graph is the cycle a → b → c → a. -/
def stCyc : SlicerState :=
  { definitions :=
      [("a", [{ name := "a", line := 1, value_source := .derived, dependencies := ["b"] }]),
       ("b", [{ name := "b", line := 2, value_source := .derived, dependencies := ["c"] }]),
       ("c", [{ name := "c", line := 3, value_source := .derived, dependencies := ["a"] }])],
    tainted := [] }

theorem is_tainted_terminates_witness :
    taint_bound stCyc "a" ≤ 9 ∧
    ∃ b w, taint_visit (taint_bound stCyc "a") stCyc "a" ∅ = some (b, w) ∧
      taint_visit 9 stCyc "a" ∅ = some (b, w) ∧ is_tainted stCyc "a" = b :=
  ⟨by decide, is_tainted_terminates stCyc "a" 9 (by decide)⟩

/-- C7: the two guards of `analyze_file_internal` — a call past the depth
bound returns the empty result untouched, and a file already in the
analyzed set returns the empty result untouched — and the top-level
`analyze_file` starts every run at depth 0 with a cleared analyzed set. -/
theorem cross_file_guards (env : CrossEnv) (max_depth depth : Nat)
    (file_path : String) (analyzed : List String) :
    (depth > max_depth →
      analyze_file_internal env max_depth file_path depth analyzed =
        (.ok empty_cross_result, analyzed)) ∧
    (file_path ∈ analyzed →
      analyze_file_internal env max_depth file_path depth analyzed =
        (.ok empty_cross_result, analyzed)) ∧
    analyze_file env max_depth file_path =
      analyze_file_internal env max_depth file_path 0 [] := by
  refine ⟨?_, ?_, rfl⟩
  · intro h
    rw [analyze_file_internal, dif_pos h]
  · intro h
    rw [analyze_file_internal]
    by_cases hgt : depth > max_depth
    · rw [dif_pos hgt]
    · rw [dif_neg hgt, if_pos h]

/-- The parse tree of the augmented assignment `x += y`. -/
def w8_node : PyNode :=
  .mk "augmented_assignment" true "x += y" 0 0
    [(some "left", tsIdent "x" 0 0),
     (none, tsAnon "+=" "+=" 0 2),
     (some "right", tsIdent "y" 0 5)]

/-- The one `VariableDefinition` the slicer builds from `x += y`. -/
def w8_def : VariableDefinition :=
  { name := "x", line := 1, value_source := .derived, dependencies := ["y", "x"] }

theorem w8_defs : assignment_defs w8_node = [w8_def] := by
  simp [assignment_defs, w8_node, w8_def, tsIdent, tsAnon, PyNode.childByField,
        PyNode.children, PyNode.kind, PyNode.text, PyNode.row, analyze_value,
        slicer_extract_identifiers, slicer_extract_identifiers_list,
        ALL_ENTRY_POINTS, FLASK_ENTRY_POINTS, CLI_ENTRY_POINTS, strContains,
        charsContains, charsStartWith]

/-- C8: every `VariableDefinition` built from an `augmented_assignment`
node lists its own target name among its dependencies —
`process_assignment` pushes `var_name` into `dependencies` exactly when
the node kind is `augmented_assignment`. -/
theorem augmented_assignment_self_dep (n : PyNode) (d : VariableDefinition)
    (hk : n.kind = "augmented_assignment") (hd : d ∈ assignment_defs n) :
    d.name ∈ d.dependencies := by
  rw [assignment_defs] at hd
  obtain ⟨l, hl⟩ : ∃ l, n.childByField "left" = l := ⟨_, rfl⟩
  rw [hl] at hd
  cases l with
  | none => cases hd
  | some left =>
    simp only at hd
    obtain ⟨r, hr⟩ : ∃ r, n.childByField "right" = r := ⟨_, rfl⟩
    rw [hr] at hd
    cases r with
    | none => cases hd
    | some right =>
      simp only at hd
      rcases List.mem_map.mp hd with ⟨v, hv, rfl⟩
      simp only
      rw [if_pos hk]
      exact List.mem_append_right _ (List.mem_singleton.mpr rfl)

theorem augmented_assignment_self_dep_witness :
    w8_node.kind = "augmented_assignment" ∧ w8_def ∈ assignment_defs w8_node ∧
      w8_def.name ∈ w8_def.dependencies :=
  ⟨rfl, by simp [w8_defs],
   augmented_assignment_self_dep w8_node w8_def rfl (by simp [w8_defs])⟩

/-- C9: the generated SMT script is `(set-logic QF_S)`, then exactly one
`(declare-const <name> String)` per unique valid assignment left-hand
side (in order, no repetition), then the equality assertions, then the
injection goal `(assert (str.contains <target> "' OR '1'='1"))` where the
target is `sink_var` if declared, else the last declared name, else
`sink_var` itself, and finally `(check-sat)` and `(get-model)`.  All of
this is a pure function of the path, so the script is deterministic. -/
theorem generate_smt_structure (nodes : List PathNode) (sink_var : String) :
    generate_smt nodes sink_var =
      "(set-logic QF_S)\n" ++ decls_text (declared_vars nodes) ++
      smt_asserts nodes (declared_vars nodes) ++
      "(assert (str.contains " ++ smt_target nodes sink_var ++
      " \"' OR '1'='1\"))\n" ++ "(check-sat)\n" ++ "(get-model)\n" ∧
    (declared_vars nodes).Nodup ∧
    (∀ v, v ∈ declared_vars nodes ↔
      (is_valid_var_name v = true ∧
       ∃ node ∈ nodes, ∃ pr, splitOnce node.code '=' = some pr ∧ strTrim pr.1 = v)) ∧
    smt_target nodes sink_var =
      (if (declared_vars nodes).contains sink_var then sink_var
       else ((declared_vars nodes).getLast?).getD sink_var) := by
  refine ⟨generate_smt_shape nodes sink_var, ?_, ?_, rfl⟩
  · have h := smt_decl_fold_eq nodes "" []
    rw [declared_vars, h.2, List.nil_append]
    exact (smt_new_decls_nodup nodes []).2
  · intro v
    have h := smt_decl_fold_eq nodes "" []
    rw [declared_vars, h.2, List.nil_append]
    have hm := smt_new_decls_mem nodes [] v
    simpa using hm

/-- C10: `analyze_at_line` is `analyze` with the sink list filtered to
lines within 5 of the target; payload, attack path, success flag and
timing are never touched, status and explanation are replaced (by
`NoSinksFound` and a fixed message) exactly when the filter leaves no
sink. -/
theorem analyze_at_line_frame (solve : String → Except String (Option String))
    (payload_gen : Sink → String) (tree : PyNode) (source : String)
    (target_line : Nat) :
    (analyze_at_line solve payload_gen tree source target_line).sinks =
      (prover_analyze solve payload_gen tree source).sinks.filter
        (fun s => ((s.line : Int) - (target_line : Int)).natAbs ≤ 5) ∧
    (analyze_at_line solve payload_gen tree source target_line).payload =
      (prover_analyze solve payload_gen tree source).payload ∧
    (analyze_at_line solve payload_gen tree source target_line).attack_path =
      (prover_analyze solve payload_gen tree source).attack_path ∧
    (analyze_at_line solve payload_gen tree source target_line).success =
      (prover_analyze solve payload_gen tree source).success ∧
    (analyze_at_line solve payload_gen tree source target_line).analysis_time_ms =
      (prover_analyze solve payload_gen tree source).analysis_time_ms ∧
    (((prover_analyze solve payload_gen tree source).sinks.filter
        (fun s => ((s.line : Int) - (target_line : Int)).natAbs ≤ 5)).isEmpty = false →
      (analyze_at_line solve payload_gen tree source target_line).status =
        (prover_analyze solve payload_gen tree source).status ∧
      (analyze_at_line solve payload_gen tree source target_line).explanation =
        (prover_analyze solve payload_gen tree source).explanation) ∧
    (((prover_analyze solve payload_gen tree source).sinks.filter
        (fun s => ((s.line : Int) - (target_line : Int)).natAbs ≤ 5)).isEmpty = true →
      (analyze_at_line solve payload_gen tree source target_line).status =
        ExploitStatus.noSinksFound ∧
      (analyze_at_line solve payload_gen tree source target_line).explanation =
        "No dangerous function calls found near line " ++
          toString target_line ++ ".") := by
  by_cases h : ((prover_analyze solve payload_gen tree source).sinks.filter
      (fun s => ((s.line : Int) - (target_line : Int)).natAbs ≤ 5)).isEmpty
  · simp [analyze_at_line, h]
  · simp [analyze_at_line, h]


end CTR
